import Mathlib

set_option autoImplicit false

/-!
Shallow embedding of the voyc geolib repository (src/trig.js,
src/geoiterator.js, src/unnamed/part_000) in Lean 4, together with proofs
settling the frozen claims about the natural-language specification.

JavaScript numbers are modelled as real numbers; Math.sin, Math.cos,
Math.atan, Math.asin, Math.atan2, Math.sqrt, Math.exp and Math.log are the
corresponding real functions.  Where JavaScript produces Infinity or NaN
from a division by zero, the Lean convention x / 0 = 0 applies; each such
site is noted in a comment at the definition.
-/

noncomputable section

namespace voyc

open Real Classical

/-- Static constants from src/unnamed/part_000. -/
def radiusKm : ℝ := 6371

def circumferenceKm : ℝ := 40075.01669

def ppcm : ℝ := 37.79527559

/-- voyc.radians from part_000: degrees to radians. -/
def radians (x : ℝ) : ℝ := x * (π / 180)

/-- voyc.degrees from part_000: radians to degrees. -/
def degrees (x : ℝ) : ℝ := x * (180 / π)

/-- JavaScript Math.atan2(y, x): the angle in (-π, π] of the point (x, y),
modelled as the complex argument of x + y i, which has the same case
analysis (arctan (y/x) shifted by ±π in the left half plane, ±π/2 on the
positive/negative imaginary axis, and 0 at the origin). -/
def atan2 (y x : ℝ) : ℝ := Complex.arg (Complex.mk x y)

/-- JavaScript remainder a % b (sign of the dividend): truncated division. -/
def jsmod (a b : ℝ) : ℝ :=
  if 0 ≤ a / b then a - b * ⌊a / b⌋ else a - b * ⌈a / b⌉

/-- Modelled from the spec: voyc.clamp is called by project() but its
definition is not part of the provided sources; the spec says the cylindrical
path "clamps latitude to ±85.05113°", i.e. clamp(x, lo, hi) bounds x into
[lo, hi]. -/
def clamp (x lo hi : ℝ) : ℝ := max lo (min x hi)

/-- voyc.mercatorStretch from part_000. -/
def mercatorStretch (latm : ℝ) : ℝ :=
  degrees (Real.log (Real.tan (π / 4 + radians latm / 2)))

/-- voyc.mercatorShrink from part_000. -/
def mercatorShrink (lat : ℝ) : ℝ :=
  degrees (2 * Real.arctan (Real.exp (radians lat)) - π / 2)

/-- JavaScript Math.round: half-up rounding. -/
def jsround (x : ℝ) : ℝ := (⌊x + 1 / 2⌋ : ℤ)

/-- voyc.scaler from part_000 (ppcm argument defaulted). -/
def scaler (width zoom : ℝ) : ℝ :=
  jsround ((1 / (2 : ℝ) ^ zoom) * ((circumferenceKm * 100000) / (width / ppcm)))

/-- voyc.length from trig.js: Euclidean distance of two points. -/
def length (A B : ℝ × ℝ) : ℝ :=
  Real.sqrt ((B.2 - A.2) ^ 2 + (B.1 - A.1) ^ 2)

/-- voyc.slope from trig.js.  (For a vertical segment the JavaScript value is
±Infinity; here the division-by-zero convention yields 0.) -/
def slope (A B : ℝ × ℝ) : ℝ := (B.2 - A.2) / (B.1 - A.1)

/-- voyc.slopePerpendicular from trig.js. -/
def slopePerpendicular (m : ℝ) : ℝ := -1 / m

/-- voyc.lineGivenTwoPoints from trig.js: [a,b,c,m,i] of line AB. -/
def lineGivenTwoPoints (A B : ℝ × ℝ) : ℝ × ℝ × ℝ × ℝ × ℝ :=
  let a := A.2 - B.2
  let b := B.1 - A.1
  let c := A.1 * B.2 - B.1 * A.2
  (a, b, c, -a / b, -c / b)

/-- voyc.lineGivenSlopeAndOnePoint from trig.js. -/
def lineGivenSlopeAndOnePoint (m : ℝ) (A : ℝ × ℝ) : ℝ × ℝ × ℝ × ℝ × ℝ :=
  let i := -m * A.1 + A.2
  let xB := (0 : ℝ)
  let yB := i
  (A.2 - yB, xB - A.1, A.1 * yB - xB * A.2, m, i)

/-- voyc.intersection from trig.js: foot D of the perpendicular from C to
line AB. -/
def intersection (A B C : ℝ × ℝ) : ℝ × ℝ :=
  let AB := lineGivenTwoPoints A B
  let a1 := AB.1
  let b1 := AB.2.1
  let c1 := AB.2.2.1
  let m1 := AB.2.2.2.1
  let mp := slopePerpendicular m1
  let CD := lineGivenSlopeAndOnePoint mp C
  let a2 := CD.1
  let b2 := CD.2.1
  let c2 := CD.2.2.1
  ((b1 * c2 - b2 * c1) / (a1 * b2 - a2 * b1),
   (a2 * c1 - a1 * c2) / (a1 * b2 - a2 * b1))

/-- voyc.distancePointToLine from trig.js (the function computes a second
estimate d2 from the two points but returns d1; d2 is dead code and omitted). -/
def distancePointToLine (E A B : ℝ × ℝ) : ℝ :=
  let l := lineGivenTwoPoints A B
  let a := l.1
  let b := l.2.1
  let c := l.2.2.1
  |a * E.1 + b * E.2 + c| / Real.sqrt (a * a + b * b)

/-- voyc.pointInRect from trig.js: strict containment of C in the rectangle
with corner A at top-left (l = A.x, t = A.y) and B at bottom-right. -/
def pointInRect (C A B : ℝ × ℝ) : Prop :=
  C.1 > A.1 ∧ C.1 < B.1 ∧ C.2 < A.2 ∧ C.2 > B.2

instance (C A B : ℝ × ℝ) : Decidable (pointInRect C A B) := by
  unfold pointInRect; infer_instance

/-- voyc.distancePointToLineSeg from trig.js. -/
def distancePointToLineSeg (E A B : ℝ × ℝ) : ℝ :=
  let d := distancePointToLine E A B
  let D := intersection A B E
  if pointInRect D A B then d else min (length A E) (length B E)

/-- voyc.calcθ from part_000: haversine central angle between coordinates. -/
def calcθ (coA coB : ℝ × ℝ) : ℝ :=
  let lA := radians coA.1
  let fA := radians coA.2
  let lB := radians coB.1
  let fB := radians coB.2
  let dl := lB - lA
  let df := fB - fA
  let hav := Real.sin (df / 2) * Real.sin (df / 2) +
    Real.sin (dl / 2) * Real.sin (dl / 2) * Real.cos fA * Real.cos fB
  2 * atan2 (Real.sqrt hav) (Real.sqrt (1 - hav))

/-- voyc.distanceKm from part_000. -/
def distanceKm (coA coB : ℝ × ℝ) : ℝ := calcθ coA coB * radiusKm

/-- voyc.τ from part_000. -/
def τ : ℝ := 2 * π

/-- voyc.halfπ from part_000. -/
def halfπ : ℝ := π / 2

/-- Constrain-to-pi step used verbatim in both project() (line 484) and
invert() (line 583): (x > π) ? x - τ : (x < -π) ? x + τ : x. -/
def wrapPi (x : ℝ) : ℝ := if x > π then x - τ else if x < -π then x + τ else x

/-- voyc.Projection.prototype.asin from trig.js: arcsine constrained within
plus or minus half pi (the clamp guard). -/
def asin (x : ℝ) : ℝ := if x > 1 then halfπ else if x < -1 then -halfπ else Real.arcsin x

/-- Mixer preset flags (one row of the voyc.mixer table in trig.js). -/
structure Mixer where
  orthographic : Bool
  cylindrical : Bool
  stitch : Bool
  viewport : Bool
  mercator : Bool
  soupcan : Bool
deriving DecidableEq

/-- voyc.mixer preset table from trig.js (indices 0-8).  An index outside
the table is undefined in JavaScript; it is mapped to the all-false row and
never used by the claims. -/
def mixer : ℕ → Mixer
  | 0 => ⟨true, false, false, false, false, false⟩
  | 1 => ⟨true, false, false, false, false, false⟩
  | 2 => ⟨true, true, false, true, false, true⟩
  | 3 => ⟨true, true, false, true, false, true⟩
  | 4 => ⟨false, true, false, true, false, true⟩
  | 5 => ⟨false, true, false, true, false, true⟩
  | 6 => ⟨false, true, true, true, true, false⟩
  | 7 => ⟨false, true, true, true, true, false⟩
  | 8 => ⟨false, true, true, true, true, false⟩
  | _ + 9 => ⟨false, false, false, false, false, false⟩

/-- voyc.Projection.prototype.clipAngle from trig.js: cosine of the clip
angle given in degrees. -/
def clipAngle (angle : ℝ) : ℝ := Real.cos (radians angle)

/-- State of voyc.Projection (trig.js constructor).  Greek field names of the
source are transliterated: δλ/δφ/δγ are dLam/dPhi/dGam, δx/δy are dx/dy. -/
structure Projection where
  co : ℝ × ℝ
  pt : ℝ × ℝ
  zoom : ℝ
  dLam : ℝ
  dPhi : ℝ
  dGam : ℝ
  cosdPhi : ℝ
  sindPhi : ℝ
  cosdGam : ℝ
  sindGam : ℝ
  dx : ℝ
  dy : ℝ
  wd : ℝ
  ht : ℝ
  k : ℝ
  pxlPerDgr : ℝ
  uscale : ℝ
  cr : ℝ
  cx : (ℝ × ℝ) × (ℝ × ℝ)
  mx : (ℝ × ℝ) × (ℝ × ℝ)
  latClamp : ℝ
  mix : ℝ
  mf : ℝ
  sf : ℝ
  mixer : Mixer

/-- The voyc.Projection constructor.  In JavaScript this.mixer starts as the
empty object (every flag read yields undefined, i.e. false) and mf/sf are
unset until setMix; setMix itself calls voyc.interpolate, which is not part
of the provided sources, so states are built by setting the mixer/mf fields
directly and calling rotate/translate/scale. -/
def Projection.init : Projection where
  co := (0, 0)
  pt := (0, 0)
  zoom := 0
  dLam := 0
  dPhi := 0
  dGam := 0
  cosdPhi := 0
  sindPhi := 0
  cosdGam := 0
  sindGam := 0
  dx := 0
  dy := 0
  wd := 0
  ht := 0
  k := 0
  pxlPerDgr := 0
  uscale := 0
  cr := clipAngle 90
  cx := ((0, 0), (0, 0))
  mx := ((0, 0), (0, 0))
  latClamp := 85.05113
  mix := -1
  mf := 0
  sf := 0
  mixer := ⟨false, false, false, false, false, false⟩

/-- voyc.Projection.prototype.isVisibleExtent from trig.js. -/
def Projection.isVisibleExtent (p : Projection) (x y : ℝ) : Prop :=
  x ≥ p.cx.1.1 ∧ x ≤ p.cx.2.1 ∧ y ≥ p.cx.1.2 ∧ y ≤ p.cx.2.2

/-- voyc.Projection.prototype.isPointVisible from trig.js: small-circle
clipping. -/
def Projection.isPointVisible (p : Projection) (l f : ℝ) : Prop :=
  Real.cos l * Real.cos f > p.cr

/-- voyc.Projection.prototype.isPointInCircle from trig.js. -/
def Projection.isPointInCircle (p : Projection) (x y : ℝ) : Prop :=
  (x - p.wd / 2) ^ 2 + (y - p.ht / 2) ^ 2 ≤ p.k ^ 2

/-- Result of project(): the JavaScript array [x,y,visible], where x and y
remain undefined (none) when no projection path assigned them. -/
structure ProjOut where
  x : Option ℝ
  y : Option ℝ
  visible : Prop

/-- voyc.Projection.prototype.project from trig.js. -/
def Projection.project (p : Projection) (co : ℝ × ℝ) : ProjOut :=
  let cyl : Option (ℝ × ℝ) :=
    if p.mixer.cylindrical then
      let lng := co.1
      let lat := 0 - co.2
      let lat :=
        if p.mixer.mercator then
          let latc := clamp lat (0 - p.latClamp) p.latClamp
          latc + (mercatorStretch latc - latc) * p.mf
        else lat
      let lng := lng - p.co.1
      let lat := lat - p.co.2
      let lng := if p.mixer.soupcan then degrees (Real.sin (radians lng)) else lng
      some (lng * p.pxlPerDgr + p.pt.1, lat * p.pxlPerDgr + p.pt.2)
    else none
  let orth : Option (ℝ × ℝ) × Prop :=
    if p.mixer.orthographic then
      let l1 := wrapPi (radians co.1 + p.dLam)
      let f0 := radians co.2
      let x := Real.cos l1 * Real.cos f0
      let y := Real.sin l1 * Real.cos f0
      let z := Real.sin f0
      let k0 := z * p.cosdPhi + x * p.sindPhi
      let l2 := atan2 (y * p.cosdGam - k0 * p.sindGam) (x * p.cosdPhi - z * p.sindPhi)
      let f2 := asin (k0 * p.cosdGam + y * p.sindGam)
      let vis := p.isPointVisible l2 f2
      (if vis then some (Real.cos f2 * Real.sin l2 * p.k + p.dx, p.dy - Real.sin f2 * p.k)
       else none, vis)
    else (none, True)
  { x := if p.mixer.cylindrical then cyl.map Prod.fst else orth.1.map Prod.fst
    y := if p.mixer.cylindrical then cyl.map Prod.snd else orth.1.map Prod.snd
    visible := orth.2 }

/-- Result of invert(): the JavaScript array [lng,lat,visible]. -/
structure InvOut where
  lng : Option ℝ
  lat : Option ℝ
  visible : Prop

/-- voyc.Projection.prototype.invert from trig.js.  The orthographic block
runs second, so when both families are active its result overwrites the
cylindrical one. -/
def Projection.invert (p : Projection) (pt : ℝ × ℝ) : InvOut :=
  let cyl : Option (ℝ × ℝ × Prop) :=
    if p.mixer.cylindrical then
      let vis := p.isVisibleExtent pt.1 pt.2
      let x := pt.1 - p.pt.1
      let y := pt.2 - p.pt.2
      let lng := x / p.pxlPerDgr
      let lat := y / p.pxlPerDgr
      let lng := lng + p.co.1
      let lat := lat + p.co.2
      let lat := mercatorShrink lat
      let lat := 0 - lat
      let lng := if lng > 180 then -180 + jsmod lng 180 else lng
      let lng := if lng < -180 then 180 + jsmod lng 180 else lng
      some (lng, lat, vis)
    else none
  let orth : Option (ℝ × ℝ × Prop) :=
    if p.mixer.orthographic then
      let vis := p.isPointInCircle pt.1 pt.2
      let x := (pt.1 - p.dx) / p.k
      let y := (p.dy - pt.2) / p.k
      let rho := Real.sqrt (x * x + y * y)
      let c := asin rho
      let sinc := Real.sin c
      let cosc := Real.cos c
      let l := atan2 (x * sinc) (rho * cosc)
      let f := Real.arcsin (if rho = 0 then 0 else y * sinc / rho)
      let cosf := Real.cos f
      let xx := Real.cos l * cosf
      let yy := Real.sin l * cosf
      let zz := Real.sin f
      let k0 := zz * p.cosdGam - yy * p.sindGam
      let l2 := atan2 (yy * p.cosdGam + zz * p.sindGam) (xx * p.cosdPhi + k0 * p.sindPhi)
      let f2 := asin (k0 * p.cosdPhi - xx * p.sindPhi)
      let l3 := wrapPi (l2 - p.dLam)
      some (degrees l3, degrees f2, vis)
    else none
  match orth with
  | some r => { lng := some r.1, lat := some r.2.1, visible := r.2.2 }
  | none =>
    match cyl with
    | some r => { lng := some r.1, lat := some r.2.1, visible := r.2.2 }
    | none => { lng := none, lat := none, visible := True }

/-- voyc.Projection.prototype.clipExtent from trig.js.  It computes the map
extent mx (assigned to this.mx as a side effect) and returns the clip
extent cx; both are returned here.  When a corner is clipped away on the
orthographic path its projected components are undefined in JavaScript;
getD 0 stands for that junk value, which is only ever read in cylindrical
modes where project always yields a value. -/
def Projection.clipExtentCalc (p : Projection) : ((ℝ × ℝ) × (ℝ × ℝ)) × ((ℝ × ℝ) × (ℝ × ℝ)) :=
  let y := p.latClamp
  let nw := p.project (-180, y)
  let se := p.project (180, 0 - y)
  let w := nw.x.getD 0
  let n := nw.y.getD 0
  let e := se.x.getD 0
  let s := se.y.getD 0
  let mx := ((w, n), (e, s))
  let wd := (e - w) / 2
  let w2 := p.pt.1 - wd
  let e2 := p.pt.1 + wd
  ((mx), ((max w2 0, max n 0), (min e2 p.wd, min s p.ht)))

/-- Re-derive this.mx and this.cx after a setter, as each setter's trailing
this.cx = this.clipExtent() does. -/
def Projection.setExtents (p : Projection) : Projection :=
  let mc := p.clipExtentCalc
  { p with mx := mc.1, cx := mc.2 }

/-- voyc.Projection.prototype.rotate from trig.js.  The roll angle is always
supplied here (the JavaScript skips δγ when ro has fewer than three
elements). -/
def Projection.rotate (p : Projection) (ro : ℝ × ℝ × ℝ) : Projection :=
  let dLam := radians (jsmod ro.1 360)
  let dPhi := radians (jsmod ro.2.1 360)
  let dGam := radians (jsmod ro.2.2 360)
  Projection.setExtents { p with
    co := (0 - ro.1, ro.2.1)
    dLam := dLam, dPhi := dPhi, dGam := dGam
    cosdPhi := Real.cos dPhi, sindPhi := Real.sin dPhi
    cosdGam := Real.cos dGam, sindGam := Real.sin dGam }

/-- voyc.Projection.prototype.scale from trig.js. -/
def Projection.scale (p : Projection) (zoom : ℝ) : Projection :=
  let square := min p.wd p.ht
  let halfwid := square / 2
  Projection.setExtents { p with
    zoom := zoom
    uscale := scaler p.wd zoom
    k := (2 : ℝ) ^ zoom * (halfwid / π)
    pxlPerDgr := (2 : ℝ) ^ zoom * (square / 360) }

/-- voyc.Projection.prototype.translate from trig.js. -/
def Projection.translate (p : Projection) (pt : ℝ × ℝ) : Projection :=
  let wd := pt.1 * 2
  let ht := pt.2 * 2
  let square := min wd ht
  let halfwid := square / 2
  Projection.setExtents { p with
    pt := pt
    dx := pt.1, dy := pt.2, wd := wd, ht := ht
    k := (2 : ℝ) ^ p.zoom * (halfwid / π)
    pxlPerDgr := (2 : ℝ) ^ p.zoom * (square / 360) }

/-- JavaScript values returned by iterator hooks and loop flags: true,
false, the number 0, and undefined/null (both modelled as jundef). -/
inductive JVal where
  | jtrue
  | jfalse
  | jzero
  | jundef
deriving DecidableEq

/-- JavaScript truthiness of a hook return value: of the four modelled
values only true is truthy. -/
def JVal.truthy : JVal → Bool
  | .jtrue => true
  | _ => false

/-- The within argument of doPoint: the strings poly, line, point. -/
inductive Within where
  | poly
  | line
  | point
deriving DecidableEq

/-- GeoJSON geometry: the tagged variant that geoiterator.js switches on. -/
inductive Geometry (α : Type) where
  | point (c : α)
  | multiPoint (cs : List α)
  | lineString (cs : List α)
  | multiLineString (ls : List (List α))
  | polygon (rings : List (List α))
  | multiPolygon (ps : List (List (List α)))
deriving DecidableEq

/-- A collection: its geometries array (the name and metadata fields are
only read by logging and subclasses outside the claims). -/
structure Collection (α : Type) where
  geometries : List (Geometry α)
deriving DecidableEq

/-- Ghost observation events: one per hook invocation performed by the
engine, in invocation order.  They let theorems speak about which hooks
fired; the JavaScript has no such list. -/
inductive Ev (α : Type) where
  | collectionStart
  | collectionEnd
  | geometryStart (g : Geometry α)
  | geometryEnd (g : Geometry α)
  | polygonStart (ring : List α)
  | polygonEnd (ring : List α)
  | lineStart (l : List α)
  | lineEnd (l : List α)
  | doPoint (c : α) (w : Within) (ndx : ℤ)
deriving DecidableEq

/-- The overridable hook methods of voyc.GeoIterator; σ is the subclass's
mutable instance state, threaded explicitly. -/
structure Hooks (α σ : Type) where
  collectionStart : σ → Collection α → σ × JVal
  collectionEnd : σ → Collection α → σ
  geometryStart : σ → Geometry α → σ × JVal
  geometryEnd : σ → Geometry α → σ
  polygonStart : σ → List α → σ × JVal
  polygonEnd : σ → List α → σ
  lineStart : σ → List α → σ × JVal
  lineEnd : σ → List α → σ
  doPoint : σ → α → Within → ℤ → σ × JVal

/-- The loop pattern var i = -1; while (boo and ++i < len) boo = step(...):
runs step along the list, stops at (and returns) the first falsy step
result; on an empty list boo keeps its initial value true. -/
def runSeq {α β σ : Type} (step : σ → β → ℤ → σ × List (Ev α) × JVal) :
    σ → List β → ℤ → σ × List (Ev α) × JVal
  | s, [], _ => (s, [], .jtrue)
  | s, b :: bs, i =>
    let r := step s b i
    if r.2.2.truthy then
      let r2 := runSeq step r.1 bs (i + 1)
      (r2.1, r.2.1 ++ r2.2.1, r2.2.2)
    else r

/-- One doPoint call bundled with its observation event. -/
def doPointStep {α σ : Type} (h : Hooks α σ) (w : Within) (s : σ) (c : α) (i : ℤ) :
    σ × List (Ev α) × JVal :=
  let r := h.doPoint s c w i
  (r.1, [.doPoint c w i], r.2)

/-- voyc.GeoIterator.prototype.iterateLine.  The continuation flag boo is
declared inside the if-block but hoisted to function scope, so when
lineStart returns a falsy value the function returns undefined (jundef). -/
def iterateLine {α σ : Type} (h : Hooks α σ) (s : σ) (l : List α) :
    σ × List (Ev α) × JVal :=
  let r0 := h.lineStart s l
  if r0.2.truthy then
    let r1 := runSeq (doPointStep h .line) r0.1 l 0
    (h.lineEnd r1.1 l, .lineStart l :: r1.2.1 ++ [.lineEnd l], r1.2.2)
  else
    (h.lineEnd r0.1 l, [.lineStart l, .lineEnd l], .jundef)

/-- voyc.GeoIterator.prototype.iteratePolygon: only ring 0 is used; boo is
initialized to true before the polygonStart test, so a falsy polygonStart
skips the ring and returns true.  The [] fallback stands for the undefined
polygon[0] of an empty rings array (never hit by the claims). -/
def iteratePolygon {α σ : Type} (h : Hooks α σ) (s : σ) (polygon : List (List α)) :
    σ × List (Ev α) × JVal :=
  let poly := polygon.head?.getD []
  let r0 := h.polygonStart s poly
  if r0.2.truthy then
    let r1 := runSeq (doPointStep h .poly) r0.1 poly 0
    (h.polygonEnd r1.1 poly, .polygonStart poly :: r1.2.1 ++ [.polygonEnd poly], r1.2.2)
  else
    (h.polygonEnd r0.1 poly, [.polygonStart poly, .polygonEnd poly], .jtrue)

/-- The switch block of voyc.GeoIterator.prototype.iterateGeometry. -/
def dispatch {α σ : Type} (h : Hooks α σ) (s : σ) : Geometry α → σ × List (Ev α) × JVal
  | .multiPolygon ps => runSeq (fun s q _ => iteratePolygon h s q) s ps 0
  | .polygon rings => iteratePolygon h s rings
  | .multiLineString ls => runSeq (fun s l _ => iterateLine h s l) s ls 0
  | .lineString l => iterateLine h s l
  | .multiPoint cs => runSeq (doPointStep h .point) s cs 0
  | .point c => doPointStep h .point s c (-1)

/-- voyc.GeoIterator.prototype.iterateGeometry: geometryStart's result is
compared by strict equality against 0, false and true; any other value
leaves boo null (falsy), modelled by the jundef arm. -/
def iterateGeometry {α σ : Type} (h : Hooks α σ) (s : σ) (g : Geometry α) :
    σ × List (Ev α) × JVal :=
  let r0 := h.geometryStart s g
  match r0.2 with
  | .jzero => (r0.1, [.geometryStart g], .jtrue)
  | .jfalse => (r0.1, [.geometryStart g], .jfalse)
  | .jtrue =>
    let r1 := dispatch h r0.1 g
    (h.geometryEnd r1.1 g, .geometryStart g :: r1.2.1 ++ [.geometryEnd g], r1.2.2)
  | .jundef => (r0.1, [.geometryStart g], .jundef)

/-- voyc.GeoIterator.prototype.iterateCollection: the geometry loop and the
collectionEnd call run only when collectionStart returns a truthy value.
The function's JavaScript return value this.ret is subclass state outside
the claims and is not modelled. -/
def iterateCollection {α σ : Type} (h : Hooks α σ) (s : σ) (coll : Collection α) :
    σ × List (Ev α) :=
  let r0 := h.collectionStart s coll
  if r0.2.truthy then
    let r1 := runSeq (fun s g _ => iterateGeometry h s g) r0.1 coll.geometries 0
    (h.collectionEnd r1.1 coll, .collectionStart :: r1.2.1 ++ [.collectionEnd])
  else (r0.1, [.collectionStart])

/-- The default hooks of the abstract base class voyc.GeoIterator
(geoiterator.js lines 191-198 plus the default doPoint): collectionStart
and the end hooks return undefined; geometryStart, polygonStart, lineStart
and doPoint return true. -/
def baseHooks (α σ : Type) : Hooks α σ where
  collectionStart := fun s _ => (s, .jundef)
  collectionEnd := fun s _ => s
  geometryStart := fun s _ => (s, .jtrue)
  geometryEnd := fun s _ => s
  polygonStart := fun s _ => (s, .jtrue)
  polygonEnd := fun s _ => s
  lineStart := fun s _ => (s, .jtrue)
  lineEnd := fun s _ => s
  doPoint := fun s _ _ _ => (s, .jtrue)

/-- A stateless probe subclass for observing skip/abort semantics: each
start hook's return value is a pure function of its argument, everything
else is the base behavior. -/
def probeHooks (α : Type) (fcs : JVal) (fgs : Geometry α → JVal)
    (fps fls : List α → JVal) (fdp : α → JVal) : Hooks α Unit where
  collectionStart := fun s _ => (s, fcs)
  collectionEnd := fun s _ => s
  geometryStart := fun s g => (s, fgs g)
  geometryEnd := fun s _ => s
  polygonStart := fun s r => (s, fps r)
  polygonEnd := fun s _ => s
  lineStart := fun s l => (s, fls l)
  lineEnd := fun s _ => s
  doPoint := fun s c _ _ => (s, fdp c)

/-- Rendering-sink instructions: the canvas path calls issued by
GeoIteratorClip while building a path. -/
inductive COp where
  | moveTo (x y : ℝ)
  | lineTo (x y : ℝ)
  | arcTo (x1 y1 x2 y2 r : ℝ)
  | arc (x y r a0 a1 : ℝ) (ccw : Bool)

/-- Mutable instance state of voyc.GeoIteratorClip.  ctx is the trace of
sink instructions issued so far; the JavaScript false-initialized point
trackers are Options; ptRadius stands for palette[this.paletteNdx].ptRadius.
geomLog is ghost instrumentation recording projection.pt[0] at each entry
of iterateGeometry, used to observe the stitch re-traversals. -/
structure CState where
  proj : Projection
  ctx : List COp
  pass : ℤ
  pointCount : ℕ
  visiblePointCount : ℕ
  firstVisiblePointInRing : Option (ℝ × ℝ)
  lastVisiblePointInRing : Option (ℝ × ℝ)
  lastVisiblePointBeforeGap : Option (ℝ × ℝ)
  firstVisiblePointAfterGap : Option (ℝ × ℝ)
  isGapAtStart : Bool
  isGapAtEnd : Bool
  previousPt : Option (ℝ × ℝ)
  forcePoint : Bool
  ptRadius : ℝ
  geomLog : List ℝ

/-- voyc.GeoIteratorClip.prototype.extendToCircumference.  For a point
vertically aligned with the center, y1/x1 is ±Infinity in JavaScript and
atan gives ±π/2; under the Lean division convention the quotient is 0 (the
claims do not depend on arc endpoint values at that degenerate input). -/
def extendToCircumference (pt ctr : ℝ × ℝ) (r : ℝ) : ℝ × (ℝ × ℝ) :=
  let x1 := pt.1 - ctr.1
  let y1 := pt.2 - ctr.2
  let th0 := Real.arctan (y1 / x1)
  let th := if x1 < 0 then th0 + π else th0
  (th, (Real.cos th * r + ctr.1, Real.sin th * r + ctr.2))

/-- voyc.GeoIteratorClip.prototype.findTangent. -/
def findTangent (ob oc : ℝ × (ℝ × ℝ)) (ctr : ℝ × ℝ) (r : ℝ) : ℝ × ℝ :=
  let dth := oc.1 - ob.1
  let th3 := ob.1 + dth / 2
  let r3 := r / Real.cos (dth / 2)
  (ctr.1 + r3 * Real.cos th3, ctr.2 + r3 * Real.sin th3)

/-- voyc.GeoIteratorClip.prototype.arcGap: extend both points to the
circumference, lineTo the first, arcTo the second via the tangent point. -/
def arcGap (a d ctr : ℝ × ℝ) (r : ℝ) : List COp :=
  let ob := extendToCircumference a ctr r
  let oc := extendToCircumference d ctr r
  let e := findTangent ob oc ctr r
  [.lineTo ob.2.1 ob.2.2, .arcTo e.1 e.2 oc.2.1 oc.2.2 r]

/-- voyc.GeoIteratorClip.prototype.drawPoint (the two live sink calls; the
commented-out styling lines of the source are omitted). -/
def drawPointClip (s : CState) (pt : ℝ × ℝ) : CState :=
  { s with ctx := s.ctx ++
      [.moveTo (pt.1 + s.ptRadius - 1) (pt.2 + s.ptRadius - 1),
       .arc pt.1 pt.2 s.ptRadius 0 (2 * π) false] }

/-- voyc.GeoIteratorClip.prototype.doPoint.  pt[0] and pt[1] of the
projected array can be undefined when the point is invisible; they are read
only on the visible branch, so getD 0 never contributes a value. -/
def doPointClip (s : CState) (co : ℝ × ℝ) (w : Within) (_ndx : ℤ) : CState × JVal :=
  let out := s.proj.project co
  let pt := (out.x.getD 0, out.y.getD 0)
  let s :=
    if out.visible then
      let s :=
        if s.firstVisiblePointInRing = none then
          { s with firstVisiblePointInRing := some pt }
        else
          match s.lastVisiblePointBeforeGap with
          | some q =>
            let s := { s with firstVisiblePointAfterGap := some pt }
            let s :=
              if w = .poly then { s with ctx := s.ctx ++ arcGap q pt s.proj.pt s.proj.k }
              else if w = .line then { s with visiblePointCount := 0 }
              else s
            { s with lastVisiblePointBeforeGap := none }
          | none => s
      let s :=
        if w = .point ∨ s.forcePoint = true then drawPointClip s pt
        else if s.visiblePointCount ≠ 0 then { s with ctx := s.ctx ++ [.lineTo pt.1 pt.2] }
        else { s with ctx := s.ctx ++ [.moveTo pt.1 pt.2] }
      { s with visiblePointCount := s.visiblePointCount + 1,
               lastVisiblePointInRing := some pt,
               previousPt := some pt }
    else
      let s := if s.pointCount = 0 then { s with isGapAtStart := true } else s
      if s.lastVisiblePointBeforeGap = none ∧ s.previousPt ≠ none then
        { s with lastVisiblePointBeforeGap := s.previousPt }
      else s
  ({ s with pointCount := s.pointCount + 1 }, .jtrue)

/-- voyc.GeoIteratorClip.prototype.polygonStart: reset all per-ring
trackers, return true. -/
def polygonStartClip (s : CState) : CState × JVal :=
  ({ s with pointCount := 0, visiblePointCount := 0,
            firstVisiblePointInRing := none, lastVisiblePointInRing := none,
            lastVisiblePointBeforeGap := none, firstVisiblePointAfterGap := none,
            isGapAtStart := false, isGapAtEnd := false, previousPt := none }, .jtrue)

/-- voyc.GeoIteratorClip.prototype.polygonEnd.  When the emission condition
holds the two ring trackers are necessarily set; the fallthrough arm is
unreachable there (JavaScript would index into false). -/
def polygonEndClip (s : CState) : CState :=
  let s := if s.previousPt = none then { s with isGapAtEnd := true } else s
  if s.visiblePointCount ≠ 0 ∧ (s.isGapAtStart ∨ s.isGapAtEnd) then
    match s.lastVisiblePointInRing, s.firstVisiblePointInRing with
    | some lv, some fv =>
      { s with ctx := s.ctx ++ arcGap lv fv s.proj.pt s.proj.k ++ [.lineTo fv.1 fv.2] }
    | _, _ => s
  else s

/-- voyc.GeoIteratorClip.prototype.lineStart: run polygonStart, return
true. -/
def lineStartClip (s : CState) : CState × JVal :=
  ((polygonStartClip s).1, .jtrue)

/-- Hook methods of voyc.GeoIteratorClip in the Hooks record shape.  The
stitch re-entry performed by its geometryEnd needs the engine itself and is
modelled by iterateGeometryClip below; dispatch never calls the
geometry-level or collection-level hooks, so their entries here cover only
the pass counter bookkeeping (collectionStart's canvas clearing and palette
wiring are outside the claims). -/
def clipHooks : Hooks (ℝ × ℝ) CState where
  collectionStart := fun s _ => ({ s with pass := 0, ctx := [] }, .jtrue)
  collectionEnd := fun s _ => s
  geometryStart := fun s _ => ({ s with pass := s.pass + 1 }, .jtrue)
  geometryEnd := fun s _ => { s with pass := s.pass - 1 }
  polygonStart := fun s _ => polygonStartClip s
  polygonEnd := fun s _ => polygonEndClip s
  lineStart := fun s _ => lineStartClip s
  lineEnd := fun s _ => s
  doPoint := fun s c w i => doPointClip s c w i

/-- voyc.GeoIteratorClip.prototype.geometryEnd: the cylindrical stitch
block (shift the projection's horizontal translation right by the full map
width, re-traverse the same geometry, shift left, re-traverse, restore)
guarded by pass == 1, followed by the pass decrement.  The re-entrant
this.iterateGeometry call is abstracted as the recur argument. -/
def geometryEndClip (recur : CState → Geometry (ℝ × ℝ) → CState × JVal)
    (s : CState) (g : Geometry (ℝ × ℝ)) : CState :=
  let s :=
    if s.pass = 1 ∧ s.proj.mixer.stitch = true then
      let wd := s.proj.mx.2.1 - s.proj.mx.1.1
      let s := { s with proj := { s.proj with pt := (s.proj.pt.1 + wd, s.proj.pt.2) } }
      let s := (recur s g).1
      let s := { s with proj := { s.proj with pt := (s.proj.pt.1 - 2 * wd, s.proj.pt.2) } }
      let s := (recur s g).1
      { s with proj := { s.proj with pt := (s.proj.pt.1 + wd, s.proj.pt.2) } }
    else s
  { s with pass := s.pass - 1 }

/-- voyc.GeoIteratorClip traversal of one geometry: geometryStart (pass
increment), the dispatch switch, then geometryEnd with the stitch block.
The fuel only bounds the re-entry depth; the pass guard keeps the real
recursion at depth two, so any fuel ≥ 2 gives the same result from pass 0.
Entry to the function records projection.pt[0] in the ghost geomLog. -/
def iterateGeometryClip : ℕ → CState → Geometry (ℝ × ℝ) → CState × JVal
  | 0, s, _ => (s, .jundef)
  | fuel + 1, s, g =>
    let s := { s with geomLog := s.geomLog ++ [s.proj.pt.1], pass := s.pass + 1 }
    let r := dispatch clipHooks s g
    (geometryEndClip (iterateGeometryClip fuel) r.1 g, r.2.2)

/-- Expected doPoint observation events for a coordinate run starting at a
given loop index. -/
def pointEvs {α : Type} (w : Within) : List α → ℤ → List (Ev α)
  | [], _ => []
  | c :: cs, i => .doPoint c w i :: pointEvs w cs (i + 1)

/-- Concatenated observation events of iterateGeometry over a list of
geometries with a stateless hook set. -/
def geomEvs {α : Type} (h : Hooks α Unit) (gs : List (Geometry α)) : List (Ev α) :=
  gs.foldr (fun g acc => (iterateGeometry h () g).2.1 ++ acc) []

/-- Projected pixel of a coordinate: components of the project() result
array (defined for every coordinate the claims feed it). -/
def projPt (p : Projection) (c : ℝ × ℝ) : ℝ × ℝ :=
  ((p.project c).x.getD 0, (p.project c).y.getD 0)

/-- Expected lineTo instructions for a run of projected coordinates. -/
def lineTos (p : Projection) (l : List (ℝ × ℝ)) : List COp :=
  l.map (fun c => .lineTo (projPt p c).1 (projPt p c).2)

/-- Projected pixel of the last coordinate of a run, with a fallback for
the empty run: the value held by the previous-point tracker after the
run. -/
def lastProjPt (p : Projection) : ℝ × ℝ → List (ℝ × ℝ) → ℝ × ℝ
  | x, [] => x
  | _, c :: cs => lastProjPt p (projPt p c) cs

/-- A freshly constructed GeoIteratorClip instance state over a given
projection (empty sink, pass 0, all trackers cleared, forcePoint false). -/
def cstate0 (p : Projection) : CState where
  proj := p
  ctx := []
  pass := 0
  pointCount := 0
  visiblePointCount := 0
  firstVisiblePointInRing := none
  lastVisiblePointInRing := none
  lastVisiblePointBeforeGap := none
  firstVisiblePointAfterGap := none
  isGapAtStart := false
  isGapAtEnd := false
  previousPt := none
  forcePoint := false
  ptRadius := 0
  geomLog := []

/-- Projection configured on the orthographic-only preset (mixer row 0) by
the setter sequence rotate, translate, scale. -/
def orthoProjState (ro : ℝ × ℝ × ℝ) (t : ℝ × ℝ) (z : ℝ) : Projection :=
  ((({ Projection.init with mixer := mixer 0 }).rotate ro).translate t).scale z

/-- Projection configured on the cylindrical preset of mixer row 4
(orthographic false, cylindrical true, soupcan true), no rotation, viewport
center (200,200), zoom 0. -/
def cylProjState : Projection :=
  ((({ Projection.init with mixer := mixer 4 }).rotate (0, 0, 0)).translate (200, 200)).scale 0

/-- The rotated longitude λ2 computed inside project()'s orthographic
block (named for stating round-trip lemmas; the body is the block's code). -/
def orthoL2 (p : Projection) (co : ℝ × ℝ) : ℝ :=
  let l1 := wrapPi (radians co.1 + p.dLam)
  let f0 := radians co.2
  let x := Real.cos l1 * Real.cos f0
  let y := Real.sin l1 * Real.cos f0
  let z := Real.sin f0
  let k0 := z * p.cosdPhi + x * p.sindPhi
  atan2 (y * p.cosdGam - k0 * p.sindGam) (x * p.cosdPhi - z * p.sindPhi)

/-- The rotated latitude φ2 computed inside project()'s orthographic
block. -/
def orthoF2 (p : Projection) (co : ℝ × ℝ) : ℝ :=
  let l1 := wrapPi (radians co.1 + p.dLam)
  let f0 := radians co.2
  let x := Real.cos l1 * Real.cos f0
  let y := Real.sin l1 * Real.cos f0
  let z := Real.sin f0
  let k0 := z * p.cosdPhi + x * p.sindPhi
  asin (k0 * p.cosdGam + y * p.sindGam)

/-- The pre-unrotation longitude λ2 computed inside invert()'s orthographic
block (before subtracting δλ and wrapping). -/
def invL2 (p : Projection) (pt : ℝ × ℝ) : ℝ :=
  let x := (pt.1 - p.dx) / p.k
  let y := (p.dy - pt.2) / p.k
  let rho := Real.sqrt (x * x + y * y)
  let c := asin rho
  let sinc := Real.sin c
  let cosc := Real.cos c
  let l := atan2 (x * sinc) (rho * cosc)
  let f := Real.arcsin (if rho = 0 then 0 else y * sinc / rho)
  let cosf := Real.cos f
  let xx := Real.cos l * cosf
  let yy := Real.sin l * cosf
  let zz := Real.sin f
  let k0 := zz * p.cosdGam - yy * p.sindGam
  atan2 (yy * p.cosdGam + zz * p.sindGam) (xx * p.cosdPhi + k0 * p.sindPhi)

/-- The unrotated latitude computed inside invert()'s orthographic block. -/
def invF2 (p : Projection) (pt : ℝ × ℝ) : ℝ :=
  let x := (pt.1 - p.dx) / p.k
  let y := (p.dy - pt.2) / p.k
  let rho := Real.sqrt (x * x + y * y)
  let c := asin rho
  let sinc := Real.sin c
  let cosc := Real.cos c
  let l := atan2 (x * sinc) (rho * cosc)
  let f := Real.arcsin (if rho = 0 then 0 else y * sinc / rho)
  let cosf := Real.cos f
  let xx := Real.cos l * cosf
  let yy := Real.sin l * cosf
  let zz := Real.sin f
  let k0 := zz * p.cosdGam - yy * p.sindGam
  asin (k0 * p.cosdPhi - xx * p.sindPhi)

end voyc

namespace voyc

open Real Classical

/-! Helper lemmas about the atan2 embedding. -/

theorem atan2_zero_nonneg {x : ℝ} (hx : 0 ≤ x) : atan2 0 x = 0 := by
  have h : Complex.mk x 0 = (x : ℂ) := rfl
  unfold atan2
  rw [h]
  exact Complex.arg_ofReal_of_nonneg hx

theorem atan2_zero_neg {x : ℝ} (hx : x < 0) : atan2 0 x = π := by
  have h : Complex.mk x 0 = (x : ℂ) := rfl
  unfold atan2
  rw [h]
  exact Complex.arg_ofReal_of_neg hx

theorem atan2_zero_zero : atan2 0 0 = 0 := by
  have h : Complex.mk 0 0 = (0 : ℂ) := rfl
  unfold atan2
  rw [h]
  exact Complex.arg_zero

theorem atan2_mem_Ioc (y x : ℝ) : atan2 y x ∈ Set.Ioc (-π) π :=
  ⟨Complex.neg_pi_lt_arg _, Complex.arg_le_pi _⟩

theorem atan2_zero_one : atan2 0 1 = 0 := atan2_zero_nonneg zero_le_one

theorem atan2_cos_sin {r θ : ℝ} (hr : 0 < r) (hθ : θ ∈ Set.Ioc (-π) π) :
    atan2 (r * Real.sin θ) (r * Real.cos θ) = θ := by
  have h : Complex.mk (r * Real.cos θ) (r * Real.sin θ)
      = (r : ℂ) * (Complex.cos θ + Complex.sin θ * Complex.I) := by
    rw [Complex.mk_eq_add_mul_I]
    rw [← Complex.ofReal_cos, ← Complex.ofReal_sin]
    push_cast
    ring
  unfold atan2
  rw [h]
  exact Complex.arg_mul_cos_add_sin_mul_I hr hθ

theorem atan2_scale {r y x : ℝ} (hr : 0 < r) : atan2 (r * y) (r * x) = atan2 y x := by
  have h : Complex.mk (r * x) (r * y) = (r : ℂ) * Complex.mk x y := by
    rw [Complex.mk_eq_add_mul_I, Complex.mk_eq_add_mul_I]
    push_cast
    ring
  unfold atan2
  rw [h]
  exact Complex.arg_real_mul _ hr

theorem cos_atan2_mul (a b : ℝ) :
    Real.cos (atan2 b a) * Real.sqrt (a ^ 2 + b ^ 2) = a := by
  by_cases h : Complex.mk a b = 0
  · have ha : a = 0 := congrArg Complex.re h
    have hb : b = 0 := congrArg Complex.im h
    subst ha hb
    simp
  · have hcos := Complex.cos_arg h
    have habs : Complex.abs (Complex.mk a b) = Real.sqrt (a ^ 2 + b ^ 2) := by
      rw [Complex.abs_apply, Complex.normSq_mk]
      congr 1
      ring
    have hne : Real.sqrt (a ^ 2 + b ^ 2) ≠ 0 := by
      rw [← habs]
      simpa using h
    unfold atan2
    rw [hcos, habs]
    field_simp

theorem sin_atan2_mul (a b : ℝ) :
    Real.sin (atan2 b a) * Real.sqrt (a ^ 2 + b ^ 2) = b := by
  have hsin := Complex.sin_arg (Complex.mk a b)
  have habs : Complex.abs (Complex.mk a b) = Real.sqrt (a ^ 2 + b ^ 2) := by
    rw [Complex.abs_apply, Complex.normSq_mk]
    congr 1
    ring
  by_cases h : Real.sqrt (a ^ 2 + b ^ 2) = 0
  · have hb : b = 0 := by
      have h2 : a ^ 2 + b ^ 2 = 0 := by
        have hnn : 0 ≤ a ^ 2 + b ^ 2 := by positivity
        have := Real.sqrt_eq_zero hnn |>.mp h
        exact this
      nlinarith
    rw [h, hb]
    ring
  · unfold atan2
    rw [hsin, habs]
    field_simp

/-- Recovery of a unit vector from its spherical angles: the third
components and the two horizontal components come back exactly. -/
theorem unit_sphere_recovery {a b c : ℝ} (h : a ^ 2 + b ^ 2 + c ^ 2 = 1) :
    Real.cos (atan2 b a) * Real.cos (Real.arcsin c) = a ∧
    Real.sin (atan2 b a) * Real.cos (Real.arcsin c) = b ∧
    Real.sin (Real.arcsin c) = c := by
  have hc1 : -1 ≤ c := by nlinarith
  have hc2 : c ≤ 1 := by nlinarith
  have hcos : Real.cos (Real.arcsin c) = Real.sqrt (a ^ 2 + b ^ 2) := by
    rw [Real.cos_arcsin]
    congr 1
    linarith
  refine ⟨?_, ?_, Real.sin_arcsin hc1 hc2⟩
  · rw [hcos]; exact cos_atan2_mul a b
  · rw [hcos]; exact sin_atan2_mul a b

theorem asin_eq_arcsin {x : ℝ} (h1 : -1 ≤ x) (h2 : x ≤ 1) :
    voyc.asin x = Real.arcsin x := by
  unfold voyc.asin
  split_ifs with ha hb
  · linarith
  · linarith
  · rfl

theorem degrees_radians (x : ℝ) : degrees (radians x) = x := by
  unfold degrees radians
  have : π ≠ 0 := Real.pi_ne_zero
  field_simp

theorem radians_lt_pi {x : ℝ} (h : x < 180) : radians x < π := by
  unfold radians
  have hπ := Real.pi_pos
  nlinarith

theorem neg_pi_lt_radians {x : ℝ} (h : -180 < x) : -π < radians x := by
  unfold radians
  have hπ := Real.pi_pos
  nlinarith

theorem jsmod_360_bounds (a : ℝ) : -360 < jsmod a 360 ∧ jsmod a 360 < 360 := by
  unfold jsmod
  have key : 360 * (a / 360) = a := by
    field_simp
  split_ifs with h
  · have h1 := Int.floor_le (a / 360)
    have h2 := Int.lt_floor_add_one (a / 360)
    constructor <;> nlinarith
  · have h1 := Int.le_ceil (a / 360)
    have h2 := Int.ceil_lt_add_one (a / 360)
    constructor <;> nlinarith

theorem wrapPi_shift (x : ℝ) : ∃ n : ℤ, wrapPi x = x + 2 * π * n := by
  unfold wrapPi τ
  split_ifs
  · exact ⟨-1, by push_cast; ring⟩
  · exact ⟨1, by push_cast; ring⟩
  · exact ⟨0, by push_cast; ring⟩

theorem wrapPi_mem {x : ℝ} (h1 : -(3 * π) < x) (h2 : x < 3 * π) :
    -π ≤ wrapPi x ∧ wrapPi x ≤ π := by
  unfold wrapPi τ
  have hπ := Real.pi_pos
  split_ifs with ha hb
  · constructor <;> linarith
  · constructor <;> linarith
  · constructor <;> linarith

/-- Claim C9: for every real argument x, the projection's guarded arcsine
returns π/2 when x > 1, -π/2 when x < -1, and Math.asin(x) otherwise, and
its value always lies in [-π/2, π/2] (in particular it is never undefined
on real input). -/
theorem asin_guard_spec : ∀ x : ℝ,
    (1 < x → voyc.asin x = π / 2) ∧
    (x < -1 → voyc.asin x = -(π / 2)) ∧
    (-1 ≤ x → x ≤ 1 → voyc.asin x = Real.arcsin x) ∧
    (-(π / 2) ≤ voyc.asin x ∧ voyc.asin x ≤ π / 2) := by
  intro x
  refine ⟨?_, ?_, ?_, ?_⟩
  · intro h
    unfold voyc.asin halfπ
    rw [if_pos h]
  · intro h
    unfold voyc.asin halfπ
    rw [if_neg (by linarith), if_pos h]
  · intro h1 h2
    exact asin_eq_arcsin h1 h2
  · unfold voyc.asin halfπ
    have hπ := Real.pi_pos
    split_ifs with ha hb
    · constructor <;> linarith
    · constructor <;> linarith
    · exact ⟨Real.neg_pi_div_two_le_arcsin x, Real.arcsin_le_pi_div_two x⟩

/-- Witness for C9 at the concrete overshoot input x = 2. -/
theorem asin_guard_spec_witness : voyc.asin 2 = π / 2 :=
  (asin_guard_spec 2).1 (by norm_num)

/-- Claim C10: under every mixer preset with cylindrical true and
orthographic false, project returns a visible result for every input
coordinate — the forward cylindrical path performs no extent clipping, and
the visible flag can only be cleared on the orthographic path. -/
theorem cylindrical_project_always_visible :
    ∀ (i : ℕ) (p : Projection) (co : ℝ × ℝ),
      (voyc.mixer i).cylindrical = true → (voyc.mixer i).orthographic = false →
      p.mixer = voyc.mixer i → (p.project co).visible := by
  intro i p co _ horth hp
  have h : p.mixer.orthographic = false := by rw [hp]; exact horth
  simp [Projection.project, h]

/-- Witness for C10: mixer row 4 with a concrete projection state and
coordinate. -/
theorem cylindrical_project_always_visible_witness :
    (({ Projection.init with mixer := voyc.mixer 4 } : Projection).project (0, 0)).visible :=
  cylindrical_project_always_visible 4 _ (0, 0) rfl rfl rfl

/-- Claim C8: distancePointToLineSeg returns the perpendicular distance
exactly when the point-in-rectangle test accepts the foot of the
perpendicular, else the closer endpoint distance; concretely the sample
E = (15,5), A = (0,0), B = (10,0) yields sqrt 50, and every segment with
equal endpoint abscissas (vertical or degenerate to a point) falls back to
the endpoint distance. -/
theorem distancePointToLineSeg_spec :
    distancePointToLineSeg (15, 5) (0, 0) (10, 0) = Real.sqrt 50 ∧
    (∀ E A B : ℝ × ℝ, A.1 = B.1 →
      distancePointToLineSeg E A B = min (length A E) (length B E)) ∧
    (∀ E A B : ℝ × ℝ, distancePointToLineSeg E A B =
      if pointInRect (intersection A B E) A B then distancePointToLine E A B
      else min (length A E) (length B E)) := by
  refine ⟨?_, ?_, ?_⟩
  · unfold distancePointToLineSeg
    rw [if_neg]
    · have h1 : length (0, 0) (15, 5) = Real.sqrt 250 := by
        unfold length
        norm_num
      have h2 : length (10, 0) (15, 5) = Real.sqrt 50 := by
        unfold length
        norm_num
      rw [h1, h2]
      exact min_eq_right (Real.sqrt_le_sqrt (by norm_num))
    · intro hc
      rcases hc with ⟨_, _, h3, h4⟩
      simp at h3 h4
      linarith
  · intro E A B hAB
    unfold distancePointToLineSeg
    rw [if_neg]
    intro hc
    rcases hc with ⟨h1, h2, _, _⟩
    rw [hAB] at h1
    linarith
  · intro E A B
    rfl

/-- Witness for C8 on the vertical segment A = (0,0), B = (0,10) with
E = (5,5). -/
theorem distancePointToLineSeg_spec_witness :
    distancePointToLineSeg (5, 5) (0, 0) (0, 10) =
      min (length (0, 0) (5, 5)) (length (0, 10) (5, 5)) :=
  distancePointToLineSeg_spec.2.1 (5, 5) (0, 0) (0, 10) rfl

/-- Claim C7 (amended): the haversine central angle is symmetric and
vanishes on equal coordinates; the converse of the vanishing direction is
false (see the counterexample at the pole). -/
theorem calcTheta_symm_and_zero_on_diag :
    (∀ a b : ℝ × ℝ, calcθ a b = calcθ b a) ∧ (∀ a : ℝ × ℝ, calcθ a a = 0) := by
  constructor
  · intro a b
    simp only [calcθ]
    have hsq : ∀ x y : ℝ, Real.sin ((x - y) / 2) * Real.sin ((x - y) / 2)
        = Real.sin ((y - x) / 2) * Real.sin ((y - x) / 2) := by
      intro x y
      have h : (x - y) / 2 = -((y - x) / 2) := by ring
      rw [h, Real.sin_neg]
      ring
    have hhav : Real.sin ((radians b.2 - radians a.2) / 2) * Real.sin ((radians b.2 - radians a.2) / 2) +
        Real.sin ((radians b.1 - radians a.1) / 2) * Real.sin ((radians b.1 - radians a.1) / 2) *
          Real.cos (radians a.2) * Real.cos (radians b.2) =
        Real.sin ((radians a.2 - radians b.2) / 2) * Real.sin ((radians a.2 - radians b.2) / 2) +
        Real.sin ((radians a.1 - radians b.1) / 2) * Real.sin ((radians a.1 - radians b.1) / 2) *
          Real.cos (radians b.2) * Real.cos (radians a.2) := by
      rw [hsq (radians b.2) (radians a.2), hsq (radians b.1) (radians a.1)]
      ring
    rw [hhav]
  · intro a
    simp only [calcθ, sub_self, zero_div, Real.sin_zero, zero_mul, mul_zero,
      zero_add, add_zero, sub_zero, Real.sqrt_zero, Real.sqrt_one]
    rw [atan2_zero_one]
    ring

/-- Counterexample for C7 as frozen: two distinct coordinates at the north
pole have haversine distance zero, so zero does not imply equality. -/
theorem calcTheta_zero_at_distinct_points :
    calcθ (0, 90) (10, 90) = 0 ∧ ((0 : ℝ), (90 : ℝ)) ≠ ((10 : ℝ), (90 : ℝ)) := by
  constructor
  · have h90 : radians 90 = π / 2 := by
      unfold radians
      ring
    simp only [calcθ, h90, Real.cos_pi_div_two, sub_self, zero_div, Real.sin_zero,
      zero_mul, mul_zero, zero_add, add_zero, sub_zero, Real.sqrt_zero, Real.sqrt_one]
    rw [atan2_zero_one]
    ring
  · intro h
    have := congrArg Prod.fst h
    norm_num at this

/-- Claim C3: evaluation of the base iterator at the failing input.  With no
hooks overridden, iterateCollection fires only collectionStart: the default
collectionStart returns undefined, which is falsy, so the geometry loop and
collectionEnd are skipped and doPoint never runs — contradicting the
claimed visit of every coordinate. -/
theorem base_iterator_visits_nothing :
    iterateCollection (baseHooks ℕ Unit) () ⟨[Geometry.point 7]⟩ =
      ((), [Ev.collectionStart]) ∧
    Ev.doPoint 7 Within.point (-1) ∉
      (iterateCollection (baseHooks ℕ Unit) () ⟨[Geometry.point 7]⟩).2 := by
  constructor
  · rfl
  · decide

theorem runSeq_points_prefix {α : Type} (h : Hooks α Unit) (fdp : α → JVal)
    (hdp : ∀ (c : α) (w : Within) (i : ℤ), h.doPoint () c w i = ((), fdp c))
    (w : Within) (xs : List α) (b : α) (ys : List α)
    (hxs : ∀ x ∈ xs, (fdp x).truthy = true) (hb : (fdp b).truthy = false) :
    ∀ i : ℤ, runSeq (doPointStep h w) () (xs ++ b :: ys) i =
      ((), pointEvs w xs i ++ [Ev.doPoint b w (i + (xs.length : ℤ))], fdp b) := by
  revert hxs
  induction xs with
  | nil =>
    intro hxs i
    simp [runSeq, doPointStep, hdp, hb, pointEvs]
  | cons x xs ih =>
    intro hxs i
    have hx : (fdp x).truthy = true := hxs x (List.mem_cons_self x xs)
    have ih2 := ih (fun y hy => hxs y (List.mem_cons_of_mem x hy)) (i + 1)
    rw [show i + 1 + (xs.length : ℤ) = i + ((x :: xs).length : ℤ) by
      push_cast [List.length_cons]; ring] at ih2
    simp [runSeq, doPointStep, hdp, hx, pointEvs, ih2]

theorem runSeq_geoms_prefix {α : Type} (h : Hooks α Unit)
    (gs1 : List (Geometry α)) (g : Geometry α) (gs2 : List (Geometry α))
    (h1 : ∀ g2 ∈ gs1, ((iterateGeometry h () g2).2.2).truthy = true)
    (h2 : ((iterateGeometry h () g).2.2).truthy = false) :
    ∀ i : ℤ, runSeq (fun s g2 _ => iterateGeometry h s g2) () (gs1 ++ g :: gs2) i =
      ((), geomEvs h gs1 ++ (iterateGeometry h () g).2.1,
        (iterateGeometry h () g).2.2) := by
  revert h1
  induction gs1 with
  | nil =>
    intro h1 i
    simp [runSeq, h2, geomEvs]
  | cons g1 gs ih =>
    intro h1 i
    have hg1 := h1 g1 (List.mem_cons_self _ _)
    have ih2 := ih (fun y hy => h1 y (List.mem_cons_of_mem _ hy)) (i + 1)
    simp [runSeq, hg1, geomEvs, ih2]

/-- Claim C2 (amended): abort semantics hold — a falsy doPoint return stops
the coordinate loop at once and the falsy value propagates, and a falsy
geometry result ends the collection loop so later siblings are unvisited;
skip semantics hold for geometryStart (the 0 signal skips the geometry and
returns true) and for polygonStart (a falsy value skips the ring and
returns true); but a lineStart returning the skip signal does not continue
with the next sibling: iterateLine then returns undefined, a falsy value
that aborts the remaining traversal. -/
theorem traversal_abort_and_skip_semantics :
    (∀ (fcs : JVal) (fgs : Geometry ℕ → JVal) (fps fls : List ℕ → JVal)
       (fdp : ℕ → JVal) (xs : List ℕ) (b : ℕ) (ys : List ℕ),
      (fls (xs ++ b :: ys)).truthy = true →
      (∀ x ∈ xs, (fdp x).truthy = true) →
      (fdp b).truthy = false →
      iterateLine (probeHooks ℕ fcs fgs fps fls fdp) () (xs ++ b :: ys) =
        ((), Ev.lineStart (xs ++ b :: ys) ::
          (pointEvs Within.line xs 0 ++ [Ev.doPoint b Within.line (xs.length : ℤ)]) ++
          [Ev.lineEnd (xs ++ b :: ys)], fdp b)) ∧
    (∀ (α : Type) (h : Hooks α Unit) (gs1 : List (Geometry α)) (g : Geometry α)
       (gs2 : List (Geometry α)),
      ((h.collectionStart () ⟨gs1 ++ g :: gs2⟩).2).truthy = true →
      (∀ g2 ∈ gs1, ((iterateGeometry h () g2).2.2).truthy = true) →
      ((iterateGeometry h () g).2.2).truthy = false →
      iterateCollection h () ⟨gs1 ++ g :: gs2⟩ =
        ((), Ev.collectionStart ::
          (geomEvs h gs1 ++ (iterateGeometry h () g).2.1) ++ [Ev.collectionEnd])) ∧
    (∀ (α : Type) (h : Hooks α Unit) (g : Geometry α),
      (h.geometryStart () g).2 = .jzero →
      iterateGeometry h () g = ((), [Ev.geometryStart g], .jtrue)) ∧
    (∀ (α : Type) (h : Hooks α Unit) (rings : List (List α)),
      ((h.polygonStart () (rings.head?.getD [])).2).truthy = false →
      iteratePolygon h () rings =
        ((), [Ev.polygonStart (rings.head?.getD []),
              Ev.polygonEnd (rings.head?.getD [])], .jtrue)) ∧
    (∀ (α : Type) (h : Hooks α Unit) (l : List α),
      ((h.lineStart () l).2).truthy = false →
      iterateLine h () l = ((), [Ev.lineStart l, Ev.lineEnd l], .jundef) ∧
        JVal.truthy .jundef = false) := by
  refine ⟨?_, ?_, ?_, ?_, ?_⟩
  · intro fcs fgs fps fls fdp xs b ys hls hxs hb
    have hrun := runSeq_points_prefix (probeHooks ℕ fcs fgs fps fls fdp) fdp
      (fun c w i => rfl) Within.line xs b ys hxs hb 0
    simp only [zero_add] at hrun
    have hstart : (probeHooks ℕ fcs fgs fps fls fdp).lineStart () (xs ++ b :: ys) =
        ((), fls (xs ++ b :: ys)) := rfl
    have hend : ∀ (s : Unit) (l2 : List ℕ),
        (probeHooks ℕ fcs fgs fps fls fdp).lineEnd s l2 = s := fun _ _ => rfl
    simp [iterateLine, hstart, hend, hls, hrun]
  · intro α h gs1 g gs2 hcs h1 h2
    have hrun := runSeq_geoms_prefix h gs1 g gs2 h1 h2 0
    simp [iterateCollection, hcs, hrun]
  · intro α h g hgs
    simp [iterateGeometry, hgs]
  · intro α h rings hps
    simp [iteratePolygon, hps]
  · intro α h l hls
    refine ⟨?_, rfl⟩
    simp [iterateLine, hls]

/-- Witness for C2 (amended), instantiating every part at concrete inputs:
an abort at the second coordinate of a three-coordinate line, an aborting
middle geometry among three, a skipped geometry, a skipped polygon ring,
and a skipped line. -/
theorem traversal_abort_and_skip_semantics_witness :
    (iterateLine (probeHooks ℕ .jtrue (fun _ => .jtrue) (fun _ => .jtrue)
        (fun _ => .jtrue) (fun c => if c = 2 then .jfalse else .jtrue)) ()
        ([1] ++ 2 :: [3]) =
      ((), Ev.lineStart ([1] ++ 2 :: [3]) ::
        (pointEvs Within.line [1] 0 ++ [Ev.doPoint 2 Within.line (([1] : List ℕ).length : ℤ)]) ++
        [Ev.lineEnd ([1] ++ 2 :: [3])],
        (fun c => if c = 2 then JVal.jfalse else JVal.jtrue) 2)) ∧
    (iterateCollection
        (probeHooks ℕ .jtrue (fun g => if g = Geometry.point 9 then .jfalse else .jtrue)
          (fun _ => .jtrue) (fun _ => .jtrue) (fun _ => .jtrue)) ()
        ⟨[Geometry.point 8] ++ Geometry.point 9 :: [Geometry.point 10]⟩ =
      ((), Ev.collectionStart ::
        (geomEvs (probeHooks ℕ .jtrue (fun g => if g = Geometry.point 9 then .jfalse else .jtrue)
          (fun _ => .jtrue) (fun _ => .jtrue) (fun _ => .jtrue)) [Geometry.point 8] ++
          (iterateGeometry (probeHooks ℕ .jtrue (fun g => if g = Geometry.point 9 then .jfalse else .jtrue)
            (fun _ => .jtrue) (fun _ => .jtrue) (fun _ => .jtrue)) () (Geometry.point 9)).2.1) ++
        [Ev.collectionEnd])) ∧
    (iterateGeometry (probeHooks ℕ .jtrue (fun _ => .jzero) (fun _ => .jtrue)
        (fun _ => .jtrue) (fun _ => .jtrue)) () (Geometry.point 3) =
      ((), [Ev.geometryStart (Geometry.point 3)], .jtrue)) ∧
    (iteratePolygon (probeHooks ℕ .jtrue (fun _ => .jtrue) (fun _ => .jzero)
        (fun _ => .jtrue) (fun _ => .jtrue)) () [[5]] =
      ((), [Ev.polygonStart (([[5]] : List (List ℕ)).head?.getD []),
            Ev.polygonEnd (([[5]] : List (List ℕ)).head?.getD [])], .jtrue)) ∧
    (iterateLine (probeHooks ℕ .jtrue (fun _ => .jtrue) (fun _ => .jtrue)
        (fun _ => .jzero) (fun _ => .jtrue)) () [1] =
      ((), [Ev.lineStart [1], Ev.lineEnd [1]], .jundef)) :=
  ⟨traversal_abort_and_skip_semantics.1 _ _ _ _ _ [1] 2 [3] (by decide)
      (by decide) (by decide),
   traversal_abort_and_skip_semantics.2.1 ℕ _ [Geometry.point 8] (Geometry.point 9)
      [Geometry.point 10] (by decide) (by decide) (by decide),
   traversal_abort_and_skip_semantics.2.2.1 ℕ _ (Geometry.point 3) (by decide),
   traversal_abort_and_skip_semantics.2.2.2.1 ℕ _ [[5]] (by decide),
   (traversal_abort_and_skip_semantics.2.2.2.2 ℕ _ [1] (by decide)).1⟩

/-- Counterexample for C2 as frozen: a lineStart hook returning the skip
signal on the first of two LineStrings.  The claim says the skip only drops
that line and traversal continues with the sibling; in fact iterateLine's
continuation flag is declared inside the skipped branch, the function
returns undefined, and the whole remaining traversal stops: the event trace
ends after the first geometry and no doPoint ever fires. -/
theorem lineStart_skip_aborts_collection :
    (iterateCollection
      (probeHooks ℕ .jtrue (fun _ => .jtrue) (fun _ => .jtrue)
        (fun l => if l = [1, 2, 3] then .jzero else .jtrue)
        (fun _ => .jtrue)) ()
      ⟨[Geometry.lineString [1, 2, 3], Geometry.lineString [4, 5]]⟩).2 =
    [Ev.collectionStart, Ev.geometryStart (Geometry.lineString [1, 2, 3]),
     Ev.lineStart [1, 2, 3], Ev.lineEnd [1, 2, 3],
     Ev.geometryEnd (Geometry.lineString [1, 2, 3]), Ev.collectionEnd] := by
  decide

/-! Preservation lemmas for the clip iterator: no dispatch-level clip hook
touches the projection, the pass counter or the ghost geomLog. -/

theorem doPointClip_pres (s : CState) (co : ℝ × ℝ) (w : Within) (i : ℤ) :
    ((doPointClip s co w i).1).proj = s.proj ∧
    ((doPointClip s co w i).1).geomLog = s.geomLog ∧
    ((doPointClip s co w i).1).pass = s.pass := by
  cases hm : s.lastVisiblePointBeforeGap with
  | none =>
    simp [doPointClip, drawPointClip, hm, apply_ite CState.proj,
      apply_ite CState.geomLog, apply_ite CState.pass]
  | some q =>
    simp [doPointClip, drawPointClip, hm, apply_ite CState.proj,
      apply_ite CState.geomLog, apply_ite CState.pass]

theorem polygonStartClip_pres (s : CState) :
    ((polygonStartClip s).1).proj = s.proj ∧
    ((polygonStartClip s).1).geomLog = s.geomLog ∧
    ((polygonStartClip s).1).pass = s.pass := by
  unfold polygonStartClip
  exact ⟨rfl, rfl, rfl⟩

theorem polygonEndClip_pres (s : CState) :
    (polygonEndClip s).proj = s.proj ∧
    (polygonEndClip s).geomLog = s.geomLog ∧
    (polygonEndClip s).pass = s.pass := by
  cases hp : s.previousPt <;> cases h1 : s.lastVisiblePointInRing <;>
    cases h2 : s.firstVisiblePointInRing <;>
    simp [polygonEndClip, hp, h1, h2, apply_ite CState.proj,
      apply_ite CState.geomLog, apply_ite CState.pass]

theorem runSeq_clip_pres {β : Type} (step : CState → β → ℤ → CState × List (Ev (ℝ × ℝ)) × JVal)
    (hstep : ∀ (s : CState) (b : β) (i : ℤ),
      ((step s b i).1).proj = s.proj ∧ ((step s b i).1).geomLog = s.geomLog ∧
      ((step s b i).1).pass = s.pass) :
    ∀ (l : List β) (s : CState) (i : ℤ),
      ((runSeq step s l i).1).proj = s.proj ∧
      ((runSeq step s l i).1).geomLog = s.geomLog ∧
      ((runSeq step s l i).1).pass = s.pass := by
  intro l
  induction l with
  | nil => intro s i; exact ⟨rfl, rfl, rfl⟩
  | cons b bs ih =>
    intro s i
    obtain ⟨h1, h2, h3⟩ := hstep s b i
    by_cases ht : ((step s b i).2.2).truthy = true
    · have hr := ih (step s b i).1 (i + 1)
      simp only [runSeq, ht, if_true]
      exact ⟨hr.1.trans h1, hr.2.1.trans h2, hr.2.2.trans h3⟩
    · simp only [runSeq]
      rw [if_neg ht]
      exact ⟨h1, h2, h3⟩

theorem doPointStepClip_pres (w : Within) :
    ∀ (s : CState) (c : ℝ × ℝ) (i : ℤ),
      ((doPointStep clipHooks w s c i).1).proj = s.proj ∧
      ((doPointStep clipHooks w s c i).1).geomLog = s.geomLog ∧
      ((doPointStep clipHooks w s c i).1).pass = s.pass := by
  intro s c i
  exact doPointClip_pres s c w i

theorem iteratePolygonClip_pres (s : CState) (rings : List (List (ℝ × ℝ))) :
    ((iteratePolygon clipHooks s rings).1).proj = s.proj ∧
    ((iteratePolygon clipHooks s rings).1).geomLog = s.geomLog ∧
    ((iteratePolygon clipHooks s rings).1).pass = s.pass := by
  unfold iteratePolygon
  obtain ⟨p1, p2, p3⟩ := polygonStartClip_pres s
  have hrun := runSeq_clip_pres _ (doPointStepClip_pres .poly)
    (rings.head?.getD []) (polygonStartClip s).1 0
  obtain ⟨e1, e2, e3⟩ :=
    polygonEndClip_pres (runSeq (doPointStep clipHooks .poly) (polygonStartClip s).1
      (rings.head?.getD []) 0).1
  have hstart : clipHooks.polygonStart s (rings.head?.getD []) = polygonStartClip s := rfl
  have hps2 : (polygonStartClip s).2 = JVal.jtrue := rfl
  simp only [hstart, hps2]
  simp only [JVal.truthy, if_true]
  exact ⟨(e1.trans hrun.1).trans p1, (e2.trans hrun.2.1).trans p2,
    (e3.trans hrun.2.2).trans p3⟩

theorem iterateLineClip_pres (s : CState) (l : List (ℝ × ℝ)) :
    ((iterateLine clipHooks s l).1).proj = s.proj ∧
    ((iterateLine clipHooks s l).1).geomLog = s.geomLog ∧
    ((iterateLine clipHooks s l).1).pass = s.pass := by
  unfold iterateLine
  obtain ⟨p1, p2, p3⟩ := polygonStartClip_pres s
  have hstart : clipHooks.lineStart s l = ((polygonStartClip s).1, JVal.jtrue) := rfl
  have hrun := runSeq_clip_pres _ (doPointStepClip_pres .line) l (polygonStartClip s).1 0
  simp only [hstart]
  simp only [JVal.truthy, if_true]
  exact ⟨hrun.1.trans p1, hrun.2.1.trans p2, hrun.2.2.trans p3⟩

theorem dispatchClip_pres (s : CState) (g : Geometry (ℝ × ℝ)) :
    ((dispatch clipHooks s g).1).proj = s.proj ∧
    ((dispatch clipHooks s g).1).geomLog = s.geomLog ∧
    ((dispatch clipHooks s g).1).pass = s.pass := by
  cases g with
  | multiPolygon ps =>
    exact runSeq_clip_pres _ (fun s2 q _ => iteratePolygonClip_pres s2 q) ps s 0
  | polygon rings => exact iteratePolygonClip_pres s rings
  | multiLineString ls =>
    exact runSeq_clip_pres _ (fun s2 l _ => iterateLineClip_pres s2 l) ls s 0
  | lineString l => exact iterateLineClip_pres s l
  | multiPoint cs => exact runSeq_clip_pres _ (doPointStepClip_pres .point) cs s 0
  | point c => exact doPointClip_pres s c .point (-1)

/-- When the pass/stitch condition fails, geometryEnd is just the pass
decrement. -/
theorem geometryEndClip_no_stitch (recur : CState → Geometry (ℝ × ℝ) → CState × JVal)
    (s : CState) (g : Geometry (ℝ × ℝ))
    (h : ¬(s.pass = 1 ∧ s.proj.mixer.stitch = true)) :
    geometryEndClip recur s g = { s with pass := s.pass - 1 } := by
  unfold geometryEndClip
  rw [if_neg h]

/-- With the pass counter away from zero the stitch block cannot fire, so
the clip traversal of one geometry is fuel-independent. -/
theorem iterateGeometryClip_inner_fuel (s : CState) (g : Geometry (ℝ × ℝ))
    (hs : s.pass ≠ 0) (f : ℕ) :
    iterateGeometryClip (f + 1) s g = iterateGeometryClip 1 s g := by
  have hpass : (dispatch clipHooks
      { s with geomLog := s.geomLog ++ [s.proj.pt.1], pass := s.pass + 1 } g).1.pass =
      s.pass + 1 :=
    (dispatchClip_pres _ g).2.2
  have hcond : ¬((dispatch clipHooks
      { s with geomLog := s.geomLog ++ [s.proj.pt.1], pass := s.pass + 1 } g).1.pass = 1 ∧
      ((dispatch clipHooks
      { s with geomLog := s.geomLog ++ [s.proj.pt.1], pass := s.pass + 1 } g).1.proj.mixer.stitch = true)) := by
    intro hc
    obtain ⟨hc1, _⟩ := hc
    rw [hpass] at hc1
    exact hs (by omega)
  show iterateGeometryClip (f + 1) s g = iterateGeometryClip (0 + 1) s g
  simp only [iterateGeometryClip]
  rw [geometryEndClip_no_stitch _ _ _ hcond, geometryEndClip_no_stitch _ _ _ hcond]

/-- Field effects of a clip traversal started away from pass zero: the
projection comes back untouched, the ghost log gains exactly one entry and
the pass counter is restored. -/
theorem iterateGeometryClip_inner_fields (s : CState) (g : Geometry (ℝ × ℝ))
    (hs : s.pass ≠ 0) (f : ℕ) :
    ((iterateGeometryClip (f + 1) s g).1).proj = s.proj ∧
    ((iterateGeometryClip (f + 1) s g).1).geomLog = s.geomLog ++ [s.proj.pt.1] ∧
    ((iterateGeometryClip (f + 1) s g).1).pass = s.pass := by
  have hproj : (dispatch clipHooks
      { s with geomLog := s.geomLog ++ [s.proj.pt.1], pass := s.pass + 1 } g).1.proj =
      s.proj :=
    (dispatchClip_pres _ g).1
  have hlog : (dispatch clipHooks
      { s with geomLog := s.geomLog ++ [s.proj.pt.1], pass := s.pass + 1 } g).1.geomLog =
      s.geomLog ++ [s.proj.pt.1] :=
    (dispatchClip_pres _ g).2.1
  have hpass : (dispatch clipHooks
      { s with geomLog := s.geomLog ++ [s.proj.pt.1], pass := s.pass + 1 } g).1.pass =
      s.pass + 1 :=
    (dispatchClip_pres _ g).2.2
  have hcond : ¬((dispatch clipHooks
      { s with geomLog := s.geomLog ++ [s.proj.pt.1], pass := s.pass + 1 } g).1.pass = 1 ∧
      ((dispatch clipHooks
      { s with geomLog := s.geomLog ++ [s.proj.pt.1], pass := s.pass + 1 } g).1.proj.mixer.stitch = true)) := by
    intro hc
    obtain ⟨hc1, _⟩ := hc
    rw [hpass] at hc1
    exact hs (by omega)
  simp only [iterateGeometryClip]
  rw [geometryEndClip_no_stitch _ _ _ hcond]
  refine ⟨hproj, hlog, ?_⟩
  show (dispatch clipHooks
      { s with geomLog := s.geomLog ++ [s.proj.pt.1], pass := s.pass + 1 } g).1.pass - 1 =
    s.pass
  rw [hpass]
  omega

/-- Two re-entry functions that agree away from pass zero give the same
geometryEnd result. -/
theorem geometryEndClip_congr
    (recur1 recur2 : CState → Geometry (ℝ × ℝ) → CState × JVal)
    (s : CState) (g : Geometry (ℝ × ℝ))
    (hrec : ∀ s2 : CState, s2.pass ≠ 0 → recur1 s2 g = recur2 s2 g)
    (hpres : ∀ s2 : CState, s2.pass ≠ 0 → ((recur2 s2 g).1).pass = s2.pass)
    (h1 : s.pass = 1) :
    geometryEndClip recur1 s g = geometryEndClip recur2 s g := by
  by_cases hc : s.pass = 1 ∧ s.proj.mixer.stitch = true
  · simp only [geometryEndClip]
    rw [if_pos hc, if_pos hc]
    set wd := s.proj.mx.2.1 - s.proj.mx.1.1 with hwd
    set sA : CState :=
      { s with proj := { s.proj with pt := (s.proj.pt.1 + wd, s.proj.pt.2) } } with hsA
    have hA : sA.pass ≠ 0 := by
      rw [hsA]
      show s.pass ≠ 0
      omega
    rw [hrec sA hA]
    set sC : CState :=
      { (recur2 sA g).1 with proj := { (recur2 sA g).1.proj with
          pt := ((recur2 sA g).1.proj.pt.1 - 2 * wd, (recur2 sA g).1.proj.pt.2) } } with hsC
    have hC : sC.pass ≠ 0 := by
      rw [hsC]
      show ((recur2 sA g).1).pass ≠ 0
      rw [hpres sA hA]
      rw [hsA]
      show s.pass ≠ 0
      omega
    rw [hrec sC hC]
  · simp only [geometryEndClip]
    rw [if_neg hc, if_neg hc]

/-- Field effects of the stitch block of geometryEnd at pass 1: the
projection (including its translation pt) is fully restored, the ghost log
gains the shifted-right entry then the shifted-left entry, and the pass
counter is decremented. -/
theorem geometryEndClip_stitch_fields
    (recur : CState → Geometry (ℝ × ℝ) → CState × JVal)
    (s : CState) (g : Geometry (ℝ × ℝ))
    (hfld : ∀ s2 : CState, s2.pass ≠ 0 →
      ((recur s2 g).1).proj = s2.proj ∧
      ((recur s2 g).1).geomLog = s2.geomLog ++ [s2.proj.pt.1] ∧
      ((recur s2 g).1).pass = s2.pass)
    (h1 : s.pass = 1) (hst : s.proj.mixer.stitch = true) :
    (geometryEndClip recur s g).proj = s.proj ∧
    (geometryEndClip recur s g).geomLog =
      s.geomLog ++ [s.proj.pt.1 + (s.proj.mx.2.1 - s.proj.mx.1.1),
        s.proj.pt.1 - (s.proj.mx.2.1 - s.proj.mx.1.1)] ∧
    (geometryEndClip recur s g).pass = s.pass - 1 := by
  simp only [geometryEndClip]
  rw [if_pos ⟨h1, hst⟩]
  set wd := s.proj.mx.2.1 - s.proj.mx.1.1 with hwd
  set sA : CState :=
    { s with proj := { s.proj with pt := (s.proj.pt.1 + wd, s.proj.pt.2) } } with hsA
  have hA : sA.pass ≠ 0 := by
    rw [hsA]
    show s.pass ≠ 0
    omega
  obtain ⟨a1, a2, a3⟩ := hfld sA hA
  set sC : CState :=
    { (recur sA g).1 with proj := { (recur sA g).1.proj with
        pt := ((recur sA g).1.proj.pt.1 - 2 * wd, (recur sA g).1.proj.pt.2) } } with hsC
  have hC : sC.pass ≠ 0 := by
    rw [hsC]
    show ((recur sA g).1).pass ≠ 0
    rw [a3, hsA]
    show s.pass ≠ 0
    omega
  obtain ⟨b1, b2, b3⟩ := hfld sC hC
  have hsAproj : sA.proj = { s.proj with pt := (s.proj.pt.1 + wd, s.proj.pt.2) } := by
    rw [hsA]
  have hsClog : sC.geomLog = s.geomLog ++ [s.proj.pt.1 + wd] := by
    rw [hsC]
    show ((recur sA g).1).geomLog = _
    rw [a2, hsA]
  have hsCproj : sC.proj = { s.proj with pt := (s.proj.pt.1 + wd - 2 * wd, s.proj.pt.2) } := by
    rw [hsC]
    show { (recur sA g).1.proj with
        pt := ((recur sA g).1.proj.pt.1 - 2 * wd, (recur sA g).1.proj.pt.2) } = _
    rw [a1, hsAproj]
  have hsCpt : sC.proj.pt.1 = s.proj.pt.1 + wd - 2 * wd := by rw [hsCproj]
  refine ⟨?_, ?_, ?_⟩
  · show { (recur sC g).1.proj with
        pt := ((recur sC g).1.proj.pt.1 + wd, (recur sC g).1.proj.pt.2) } = s.proj
    rw [b1, hsCproj]
    show ({ s.proj with pt := (s.proj.pt.1 + wd - 2 * wd + wd, s.proj.pt.2) } : Projection)
      = s.proj
    rw [show s.proj.pt.1 + wd - 2 * wd + wd = s.proj.pt.1 by ring]
  · show ((recur sC g).1).geomLog = _
    rw [b2, hsClog, hsCpt]
    rw [show s.proj.pt.1 + wd - 2 * wd = s.proj.pt.1 - wd by ring]
    simp
  · show ((recur sC g).1).pass - 1 = s.pass - 1
    rw [b3]
    rw [hsC]
    show ((recur sA g).1).pass - 1 = s.pass - 1
    rw [a3, hsA]

/-- Claim C6 (theorem): with stitch set and a pass-depth-1 call (entry pass
0), the clip traversal result does not depend on any fuel beyond two (no
deeper re-entry happens), the ghost entry log shows exactly three
traversals of the geometry — at the original pt[0], at pt[0] plus the full
map width, and at pt[0] minus the full map width — and on return the whole
projection, in particular pt[0], is restored to its entry value. -/
theorem clip_stitch_three_passes :
    ∀ (k j : ℕ) (s : CState) (g : Geometry (ℝ × ℝ)),
      s.pass = 0 → s.proj.mixer.stitch = true →
      iterateGeometryClip (k + 1 + 1) s g = iterateGeometryClip (j + 1 + 1) s g ∧
      (iterateGeometryClip (k + 1 + 1) s g).1.geomLog =
        s.geomLog ++ [s.proj.pt.1,
          s.proj.pt.1 + (s.proj.mx.2.1 - s.proj.mx.1.1),
          s.proj.pt.1 - (s.proj.mx.2.1 - s.proj.mx.1.1)] ∧
      (iterateGeometryClip (k + 1 + 1) s g).1.proj = s.proj := by
  have master : ∀ (f : ℕ) (s : CState) (g : Geometry (ℝ × ℝ)),
      s.pass = 0 → s.proj.mixer.stitch = true →
      iterateGeometryClip (f + 1 + 1) s g = iterateGeometryClip (0 + 1 + 1) s g ∧
      (iterateGeometryClip (f + 1 + 1) s g).1.geomLog =
        s.geomLog ++ [s.proj.pt.1,
          s.proj.pt.1 + (s.proj.mx.2.1 - s.proj.mx.1.1),
          s.proj.pt.1 - (s.proj.mx.2.1 - s.proj.mx.1.1)] ∧
      (iterateGeometryClip (f + 1 + 1) s g).1.proj = s.proj := by
    intro f s g h0 hst
    have hproj : (dispatch clipHooks
        { s with geomLog := s.geomLog ++ [s.proj.pt.1], pass := s.pass + 1 } g).1.proj =
        s.proj :=
      (dispatchClip_pres _ g).1
    have hlog : (dispatch clipHooks
        { s with geomLog := s.geomLog ++ [s.proj.pt.1], pass := s.pass + 1 } g).1.geomLog =
        s.geomLog ++ [s.proj.pt.1] :=
      (dispatchClip_pres _ g).2.1
    have hpass : (dispatch clipHooks
        { s with geomLog := s.geomLog ++ [s.proj.pt.1], pass := s.pass + 1 } g).1.pass =
        s.pass + 1 :=
      (dispatchClip_pres _ g).2.2
    have hpass1 : (dispatch clipHooks
        { s with geomLog := s.geomLog ++ [s.proj.pt.1], pass := s.pass + 1 } g).1.pass = 1 := by
      rw [hpass, h0]
      omega
    have hst2 : (dispatch clipHooks
        { s with geomLog := s.geomLog ++ [s.proj.pt.1], pass := s.pass + 1 } g).1.proj.mixer.stitch = true := by
      rw [hproj]
      exact hst
    have hrec : ∀ s2 : CState, s2.pass ≠ 0 →
        iterateGeometryClip (f + 1) s2 g = iterateGeometryClip (0 + 1) s2 g := by
      intro s2 h2
      exact (iterateGeometryClip_inner_fuel s2 g h2 f).trans
        (iterateGeometryClip_inner_fuel s2 g h2 0).symm
    have hpres : ∀ s2 : CState, s2.pass ≠ 0 →
        ((iterateGeometryClip (0 + 1) s2 g).1).pass = s2.pass := by
      intro s2 h2
      exact (iterateGeometryClip_inner_fields s2 g h2 0).2.2
    have hfld : ∀ s2 : CState, s2.pass ≠ 0 →
        ((iterateGeometryClip (0 + 1) s2 g).1).proj = s2.proj ∧
        ((iterateGeometryClip (0 + 1) s2 g).1).geomLog = s2.geomLog ++ [s2.proj.pt.1] ∧
        ((iterateGeometryClip (0 + 1) s2 g).1).pass = s2.pass := by
      intro s2 h2
      exact iterateGeometryClip_inner_fields s2 g h2 0
    have hfields := geometryEndClip_stitch_fields (iterateGeometryClip (0 + 1))
      (dispatch clipHooks
        { s with geomLog := s.geomLog ++ [s.proj.pt.1], pass := s.pass + 1 } g).1 g
      hfld hpass1 hst2
    have hunfold : ∀ f2 : ℕ, iterateGeometryClip (f2 + 1 + 1) s g =
        (geometryEndClip (iterateGeometryClip (f2 + 1))
          (dispatch clipHooks
            { s with geomLog := s.geomLog ++ [s.proj.pt.1], pass := s.pass + 1 } g).1 g,
         (dispatch clipHooks
            { s with geomLog := s.geomLog ++ [s.proj.pt.1], pass := s.pass + 1 } g).2.2) :=
      fun f2 => rfl
    have hcongr := geometryEndClip_congr (iterateGeometryClip (f + 1))
      (iterateGeometryClip (0 + 1))
      (dispatch clipHooks
        { s with geomLog := s.geomLog ++ [s.proj.pt.1], pass := s.pass + 1 } g).1 g
      hrec hpres hpass1
    refine ⟨?_, ?_, ?_⟩
    · rw [hunfold f, hunfold 0, hcongr]
    · rw [hunfold f]
      dsimp only
      rw [hcongr, hfields.2.1, hlog, hproj, List.append_assoc]
      simp
    · rw [hunfold f]
      dsimp only
      rw [hcongr, hfields.1, hproj]
  intro k j s g h0 hst
  obtain ⟨e1, e2, e3⟩ := master k s g h0 hst
  obtain ⟨f1, _, _⟩ := master j s g h0 hst
  exact ⟨e1.trans f1.symm, e2, e3⟩

/-- Witness for C6 at a concrete state (mixer row 8, stitch true) and a
concrete one-point geometry, with fuels 2 and 3. -/
theorem clip_stitch_three_passes_witness :
    iterateGeometryClip (0 + 1 + 1) (cstate0 { Projection.init with mixer := voyc.mixer 8 })
        (Geometry.point (0, 0)) =
      iterateGeometryClip (1 + 1 + 1) (cstate0 { Projection.init with mixer := voyc.mixer 8 })
        (Geometry.point (0, 0)) ∧
    (iterateGeometryClip (0 + 1 + 1) (cstate0 { Projection.init with mixer := voyc.mixer 8 })
        (Geometry.point (0, 0))).1.proj =
      (cstate0 { Projection.init with mixer := voyc.mixer 8 }).proj := by
  obtain ⟨h1, _, h3⟩ := clip_stitch_three_passes 0 1
    (cstate0 { Projection.init with mixer := voyc.mixer 8 }) (Geometry.point (0, 0)) rfl rfl
  exact ⟨h1, h3⟩

/-! Single-step characterizations of GeoIteratorClip.doPoint, used to trace
rings and lines with one invisible run through the engine. -/

theorem doPointClip_ret (s : CState) (co : ℝ × ℝ) (w : Within) (i : ℤ) :
    (doPointClip s co w i).2 = .jtrue := rfl

/-- A visible coordinate seen while no visible point has been recorded yet:
record it as first visible, emit a moveTo, update the trackers. -/
theorem doPointClip_first_vis (s : CState) (co : ℝ × ℝ) (w : Within) (i : ℤ)
    (hv : (s.proj.project co).visible)
    (hf : s.firstVisiblePointInRing = none)
    (hvpc : s.visiblePointCount = 0)
    (hforce : s.forcePoint = false)
    (hw : w ≠ Within.point) :
    (doPointClip s co w i).1 =
      { s with firstVisiblePointInRing := some (projPt s.proj co),
               ctx := s.ctx ++ [.moveTo (projPt s.proj co).1 (projPt s.proj co).2],
               visiblePointCount := 1,
               lastVisiblePointInRing := some (projPt s.proj co),
               previousPt := some (projPt s.proj co),
               pointCount := s.pointCount + 1 } := by
  simp [doPointClip, projPt, hv, hf, hvpc, hforce, hw]

/-- A visible coordinate in a steady visible run (first visible set, no
pending gap): emit a lineTo, update the trackers. -/
theorem doPointClip_vis (s : CState) (co : ℝ × ℝ) (w : Within) (i : ℤ)
    (hv : (s.proj.project co).visible)
    (hf : s.firstVisiblePointInRing ≠ none)
    (hlb : s.lastVisiblePointBeforeGap = none)
    (hvpc : s.visiblePointCount ≠ 0)
    (hforce : s.forcePoint = false)
    (hw : w ≠ Within.point) :
    (doPointClip s co w i).1 =
      { s with ctx := s.ctx ++ [.lineTo (projPt s.proj co).1 (projPt s.proj co).2],
               visiblePointCount := s.visiblePointCount + 1,
               lastVisiblePointInRing := some (projPt s.proj co),
               previousPt := some (projPt s.proj co),
               pointCount := s.pointCount + 1 } := by
  obtain ⟨f0, hf0⟩ := Option.ne_none_iff_exists'.mp hf
  simp [doPointClip, projPt, hv, hf0, hlb, hvpc, hforce, hw]

/-- The first visible coordinate after a pending gap inside a polygon ring:
emit the bridging arc then a lineTo, clear the gap marker. -/
theorem doPointClip_gap_close_poly (s : CState) (co : ℝ × ℝ) (i : ℤ) (q : ℝ × ℝ)
    (hv : (s.proj.project co).visible)
    (hf : s.firstVisiblePointInRing ≠ none)
    (hlb : s.lastVisiblePointBeforeGap = some q)
    (hvpc : s.visiblePointCount ≠ 0)
    (hforce : s.forcePoint = false) :
    (doPointClip s co Within.poly i).1 =
      { s with firstVisiblePointAfterGap := some (projPt s.proj co),
               lastVisiblePointBeforeGap := none,
               ctx := s.ctx ++ arcGap q (projPt s.proj co) s.proj.pt s.proj.k ++
                 [.lineTo (projPt s.proj co).1 (projPt s.proj co).2],
               visiblePointCount := s.visiblePointCount + 1,
               lastVisiblePointInRing := some (projPt s.proj co),
               previousPt := some (projPt s.proj co),
               pointCount := s.pointCount + 1 } := by
  obtain ⟨f0, hf0⟩ := Option.ne_none_iff_exists'.mp hf
  simp [doPointClip, projPt, hv, hf0, hlb, hvpc, hforce, List.append_assoc]

/-- The first visible coordinate after a pending gap inside an open line:
no arc; the visible-point count is zeroed so the point is emitted with a
moveTo (the connecting segment is suppressed). -/
theorem doPointClip_gap_close_line (s : CState) (co : ℝ × ℝ) (i : ℤ) (q : ℝ × ℝ)
    (hv : (s.proj.project co).visible)
    (hf : s.firstVisiblePointInRing ≠ none)
    (hlb : s.lastVisiblePointBeforeGap = some q)
    (hforce : s.forcePoint = false) :
    (doPointClip s co Within.line i).1 =
      { s with firstVisiblePointAfterGap := some (projPt s.proj co),
               lastVisiblePointBeforeGap := none,
               ctx := s.ctx ++ [.moveTo (projPt s.proj co).1 (projPt s.proj co).2],
               visiblePointCount := 1,
               lastVisiblePointInRing := some (projPt s.proj co),
               previousPt := some (projPt s.proj co),
               pointCount := s.pointCount + 1 } := by
  obtain ⟨f0, hf0⟩ := Option.ne_none_iff_exists'.mp hf
  simp [doPointClip, projPt, hv, hf0, hlb, hforce]

/-- An invisible coordinate that opens a gap mid-ring: the previous point
becomes last-visible-before-gap, nothing is emitted. -/
theorem doPointClip_invis_open (s : CState) (co : ℝ × ℝ) (w : Within) (i : ℤ)
    (hv : ¬(s.proj.project co).visible)
    (hlb : s.lastVisiblePointBeforeGap = none)
    (hprev : s.previousPt ≠ none)
    (hpc : s.pointCount ≠ 0) :
    (doPointClip s co w i).1 =
      { s with lastVisiblePointBeforeGap := s.previousPt,
               pointCount := s.pointCount + 1 } := by
  simp [doPointClip, hv, hlb, hprev, hpc]

/-- An invisible coordinate while a gap is already pending: only the point
counter advances. -/
theorem doPointClip_invis_cont (s : CState) (co : ℝ × ℝ) (w : Within) (i : ℤ)
    (hv : ¬(s.proj.project co).visible)
    (hlb : s.lastVisiblePointBeforeGap ≠ none)
    (hpc : s.pointCount ≠ 0) :
    (doPointClip s co w i).1 =
      { s with pointCount := s.pointCount + 1 } := by
  simp [doPointClip, hv, hlb, hpc]

/-- An invisible first coordinate of a ring: mark the gap-at-start flag
(nothing else changes but the counter; the previous-point tracker is still
absent so no gap marker is recorded). -/
theorem doPointClip_invis_start (s : CState) (co : ℝ × ℝ) (w : Within) (i : ℤ)
    (hv : ¬(s.proj.project co).visible)
    (hprev : s.previousPt = none)
    (hpc : s.pointCount = 0) :
    (doPointClip s co w i).1 =
      { s with isGapAtStart := true, pointCount := s.pointCount + 1 } := by
  simp [doPointClip, hv, hprev, hpc]

/-- An invisible coordinate mid-run with no visible point seen yet: only
the counter advances. -/
theorem doPointClip_invis_nofirst (s : CState) (co : ℝ × ℝ) (w : Within) (i : ℤ)
    (hv : ¬(s.proj.project co).visible)
    (hprev : s.previousPt = none)
    (hpc : s.pointCount ≠ 0) :
    (doPointClip s co w i).1 =
      { s with pointCount := s.pointCount + 1 } := by
  simp [doPointClip, hv, hprev, hpc]

/-! Run-level lemmas: folding doPoint over uniform runs of coordinates. -/

theorem runSeq_clip_ret (w : Within) :
    ∀ (l : List (ℝ × ℝ)) (s : CState) (i : ℤ),
      (runSeq (doPointStep clipHooks w) s l i).2.2 = JVal.jtrue := by
  intro l
  induction l with
  | nil => intro s i; rfl
  | cons c l ih =>
    intro s i
    have h : (clipHooks.doPoint s c w i).2 = JVal.jtrue := rfl
    simp [runSeq, doPointStep, h, JVal.truthy, ih]

theorem runSeq_clip_cons (w : Within) (s : CState) (c : ℝ × ℝ) (l : List (ℝ × ℝ)) (i : ℤ) :
    (runSeq (doPointStep clipHooks w) s (c :: l) i).1 =
      (runSeq (doPointStep clipHooks w) (doPointClip s c w i).1 l (i + 1)).1 := by
  have h : (clipHooks.doPoint s c w i).2 = JVal.jtrue := rfl
  simp [runSeq, doPointStep, h, JVal.truthy]
  rfl

theorem runSeq_clip_idx (w : Within) :
    ∀ (l : List (ℝ × ℝ)) (s : CState) (i i2 : ℤ),
      (runSeq (doPointStep clipHooks w) s l i).1 =
        (runSeq (doPointStep clipHooks w) s l i2).1 := by
  intro l
  induction l with
  | nil => intro s i i2; rfl
  | cons c l ih =>
    intro s i i2
    rw [runSeq_clip_cons, runSeq_clip_cons]
    have h : (doPointClip s c w i).1 = (doPointClip s c w i2).1 := rfl
    rw [h]
    exact ih _ _ _

theorem runSeq_clip_append (w : Within) :
    ∀ (l1 l2 : List (ℝ × ℝ)) (s : CState) (i : ℤ),
      (runSeq (doPointStep clipHooks w) s (l1 ++ l2) i).1 =
        (runSeq (doPointStep clipHooks w)
          (runSeq (doPointStep clipHooks w) s l1 i).1 l2 0).1 := by
  intro l1
  induction l1 with
  | nil =>
    intro l2 s i
    exact runSeq_clip_idx w l2 s i 0
  | cons c l1 ih =>
    intro l2 s i
    rw [List.cons_append, runSeq_clip_cons, runSeq_clip_cons, ih]

/-- A run of visible coordinates in steady state: one lineTo each, counters
and trackers advance. -/
theorem runSeq_clip_visrun (w : Within) (hw : w ≠ Within.point) :
    ∀ (l : List (ℝ × ℝ)) (s : CState) (i : ℤ) (lv0 pv0 : ℝ × ℝ),
      s.forcePoint = false →
      s.firstVisiblePointInRing ≠ none →
      s.lastVisiblePointBeforeGap = none →
      s.visiblePointCount ≠ 0 →
      s.lastVisiblePointInRing = some lv0 →
      s.previousPt = some pv0 →
      (∀ c ∈ l, (s.proj.project c).visible) →
      (runSeq (doPointStep clipHooks w) s l i).1 =
        { s with ctx := s.ctx ++ lineTos s.proj l,
                 visiblePointCount := s.visiblePointCount + l.length,
                 pointCount := s.pointCount + l.length,
                 lastVisiblePointInRing := some (lastProjPt s.proj lv0 l),
                 previousPt := some (lastProjPt s.proj pv0 l) } := by
  intro l
  induction l with
  | nil =>
    intro s i lv0 pv0 _ _ _ _ hlv hpv _
    simp [runSeq, lineTos, lastProjPt, hlv.symm, hpv.symm]
  | cons c l ih =>
    intro s i lv0 pv0 hforce hf hlb hvpc hlv hpv hvis
    have hstep := doPointClip_vis s c w i (hvis c (List.mem_cons_self c l)) hf hlb hvpc
      hforce hw
    have hproj : (doPointClip s c w i).1.proj = s.proj := by rw [hstep]
    rw [runSeq_clip_cons]
    rw [ih (doPointClip s c w i).1 (i + 1) (projPt s.proj c) (projPt s.proj c)
      (by rw [hstep]; exact hforce) (by rw [hstep]; exact hf) (by rw [hstep]; exact hlb)
      (by rw [hstep]; exact Nat.succ_ne_zero _) (by rw [hstep]) (by rw [hstep])
      (fun d hd => by rw [hproj]; exact hvis d (List.mem_cons_of_mem c hd))]
    rw [hstep]
    simp [lineTos, lastProjPt, List.append_assoc]
    omega

/-- A run of invisible coordinates while a gap marker is already set: only
the point counter advances. -/
theorem runSeq_clip_invis_cont (w : Within) :
    ∀ (l : List (ℝ × ℝ)) (s : CState) (i : ℤ),
      s.lastVisiblePointBeforeGap ≠ none →
      s.pointCount ≠ 0 →
      (∀ c ∈ l, ¬(s.proj.project c).visible) →
      (runSeq (doPointStep clipHooks w) s l i).1 =
        { s with pointCount := s.pointCount + l.length } := by
  intro l
  induction l with
  | nil => intro s i _ _ _; simp [runSeq]
  | cons c l ih =>
    intro s i hlb hpc hvis
    have hstep := doPointClip_invis_cont s c w i (hvis c (List.mem_cons_self c l)) hlb hpc
    have hproj : (doPointClip s c w i).1.proj = s.proj := by rw [hstep]
    rw [runSeq_clip_cons]
    rw [ih (doPointClip s c w i).1 (i + 1) (by rw [hstep]; exact hlb)
      (by rw [hstep]; exact Nat.succ_ne_zero _)
      (fun d hd => by rw [hproj]; exact hvis d (List.mem_cons_of_mem c hd))]
    rw [hstep]
    simp
    omega

/-- A nonempty run of invisible coordinates opening a gap mid-ring: the
previous point is recorded as last-visible-before-gap and the counter
advances; nothing is emitted. -/
theorem runSeq_clip_invisrun (w : Within) (b : ℝ × ℝ) (bs : List (ℝ × ℝ))
    (s : CState) (i : ℤ)
    (hlb : s.lastVisiblePointBeforeGap = none)
    (hprev : s.previousPt ≠ none)
    (hpc : s.pointCount ≠ 0)
    (hvis : ∀ c ∈ b :: bs, ¬(s.proj.project c).visible) :
    (runSeq (doPointStep clipHooks w) s (b :: bs) i).1 =
      { s with lastVisiblePointBeforeGap := s.previousPt,
               pointCount := s.pointCount + (b :: bs).length } := by
  have hstep := doPointClip_invis_open s b w i (hvis b (List.mem_cons_self b bs)) hlb
    hprev hpc
  have hproj : (doPointClip s b w i).1.proj = s.proj := by rw [hstep]
  rw [runSeq_clip_cons]
  rw [runSeq_clip_invis_cont w bs (doPointClip s b w i).1 (i + 1)
    (by rw [hstep]; exact hprev) (by rw [hstep]; exact Nat.succ_ne_zero _)
    (fun d hd => by rw [hproj]; exact hvis d (List.mem_cons_of_mem b hd))]
  rw [hstep]
  simp
  omega

theorem iteratePolygonClip_run (s : CState) (ring : List (ℝ × ℝ)) :
    (iteratePolygon clipHooks s [ring]).1 =
      polygonEndClip
        (runSeq (doPointStep clipHooks .poly) (polygonStartClip s).1 ring 0).1 := by
  have h0 : ([ring] : List (List (ℝ × ℝ))).head?.getD [] = ring := rfl
  have h1 : clipHooks.polygonStart s ring = polygonStartClip s := rfl
  have h2 : (polygonStartClip s).2 = JVal.jtrue := rfl
  simp only [iteratePolygon, h0, h1, h2, JVal.truthy, if_true]
  rfl

theorem iterateLineClip_run (s : CState) (l : List (ℝ × ℝ)) :
    (iterateLine clipHooks s l).1 =
      (runSeq (doPointStep clipHooks .line) (polygonStartClip s).1 l 0).1 := by
  have h1 : clipHooks.lineStart s l = ((polygonStartClip s).1, JVal.jtrue) := rfl
  simp only [iterateLine, h1, JVal.truthy, if_true]
  rfl

/-- When the ring had no gap at either end and ended on a visible point,
polygonEnd emits nothing and changes nothing. -/
theorem polygonEndClip_noemit (s : CState)
    (hprev : s.previousPt ≠ none)
    (hgs : s.isGapAtStart = false)
    (hge : s.isGapAtEnd = false) :
    polygonEndClip s = s := by
  simp [polygonEndClip, hprev, hgs, hge]

/-- Crossing one invisible run then a visible tail inside a polygon ring,
followed by polygonEnd: exactly one bridging arc is emitted, at the first
visible point after the gap, and polygonEnd adds nothing. -/
theorem runSeq_clip_gap_poly (b c0 : ℝ × ℝ) (bs cs : List (ℝ × ℝ))
    (S1 : CState) (lv1 : ℝ × ℝ)
    (hforce : S1.forcePoint = false)
    (hf : S1.firstVisiblePointInRing ≠ none)
    (hlb : S1.lastVisiblePointBeforeGap = none)
    (hvpc : S1.visiblePointCount ≠ 0)
    (hpv : S1.previousPt = some lv1)
    (hpc : S1.pointCount ≠ 0)
    (hgs : S1.isGapAtStart = false)
    (hge : S1.isGapAtEnd = false)
    (hvbs : ∀ c ∈ b :: bs, ¬(S1.proj.project c).visible)
    (hvc : (S1.proj.project c0).visible)
    (hvcs : ∀ c ∈ cs, (S1.proj.project c).visible) :
    polygonEndClip (runSeq (doPointStep clipHooks Within.poly) S1
        ((b :: bs) ++ c0 :: cs) 0).1 =
      { S1 with
        firstVisiblePointAfterGap := some (projPt S1.proj c0),
        lastVisiblePointBeforeGap := none,
        ctx := S1.ctx ++ arcGap lv1 (projPt S1.proj c0) S1.proj.pt S1.proj.k
          ++ [.lineTo (projPt S1.proj c0).1 (projPt S1.proj c0).2]
          ++ lineTos S1.proj cs,
        visiblePointCount := S1.visiblePointCount + 1 + cs.length,
        lastVisiblePointInRing := some (lastProjPt S1.proj (projPt S1.proj c0) cs),
        previousPt := some (lastProjPt S1.proj (projPt S1.proj c0) cs),
        pointCount := S1.pointCount + (b :: bs).length + 1 + cs.length } := by
  rw [runSeq_clip_append,
    runSeq_clip_invisrun Within.poly b bs S1 0 hlb
      (by rw [hpv]; exact Option.some_ne_none _) hpc hvbs,
    runSeq_clip_cons]
  refine Eq.trans (congrArg polygonEndClip (Eq.trans (congrArg
      (fun st => (runSeq (doPointStep clipHooks Within.poly) st cs (0 + 1)).1)
      (doPointClip_gap_close_poly _ c0 0 lv1 ?_ ?_ ?_ ?_ ?_))
    (runSeq_clip_visrun Within.poly (by decide) cs _ _ (projPt S1.proj c0)
      (projPt S1.proj c0) ?_ ?_ ?_ ?_ ?_ ?_ ?_)))
    (polygonEndClip_noemit _ ?_ ?_ ?_)
  · exact hvc
  · exact hf
  · exact hpv
  · exact hvpc
  · exact hforce
  · exact hforce
  · exact hf
  · exact rfl
  · exact Nat.succ_ne_zero _
  · exact rfl
  · exact rfl
  · exact hvcs
  · exact Option.some_ne_none _
  · exact hgs
  · exact hge

/-- Crossing one invisible run then a visible tail inside an open line: no
arc; the first visible point after the gap restarts with a moveTo. -/
theorem runSeq_clip_gap_line (b c0 : ℝ × ℝ) (bs cs : List (ℝ × ℝ))
    (S1 : CState) (lv1 : ℝ × ℝ)
    (hforce : S1.forcePoint = false)
    (hf : S1.firstVisiblePointInRing ≠ none)
    (hlb : S1.lastVisiblePointBeforeGap = none)
    (_hvpc : S1.visiblePointCount ≠ 0)
    (hpv : S1.previousPt = some lv1)
    (hpc : S1.pointCount ≠ 0)
    (hvbs : ∀ c ∈ b :: bs, ¬(S1.proj.project c).visible)
    (hvc : (S1.proj.project c0).visible)
    (hvcs : ∀ c ∈ cs, (S1.proj.project c).visible) :
    (runSeq (doPointStep clipHooks Within.line) S1 ((b :: bs) ++ c0 :: cs) 0).1 =
      { S1 with
        firstVisiblePointAfterGap := some (projPt S1.proj c0),
        lastVisiblePointBeforeGap := none,
        ctx := S1.ctx ++ [.moveTo (projPt S1.proj c0).1 (projPt S1.proj c0).2]
          ++ lineTos S1.proj cs,
        visiblePointCount := 1 + cs.length,
        lastVisiblePointInRing := some (lastProjPt S1.proj (projPt S1.proj c0) cs),
        previousPt := some (lastProjPt S1.proj (projPt S1.proj c0) cs),
        pointCount := S1.pointCount + (b :: bs).length + 1 + cs.length } := by
  rw [runSeq_clip_append,
    runSeq_clip_invisrun Within.line b bs S1 0 hlb
      (by rw [hpv]; exact Option.some_ne_none _) hpc hvbs,
    runSeq_clip_cons]
  refine Eq.trans (congrArg
      (fun st => (runSeq (doPointStep clipHooks Within.line) st cs (0 + 1)).1)
      (doPointClip_gap_close_line _ c0 0 lv1 ?_ ?_ ?_ ?_))
    (runSeq_clip_visrun Within.line (by decide) cs _ _ (projPt S1.proj c0)
      (projPt S1.proj c0) ?_ ?_ ?_ ?_ ?_ ?_ ?_)
  · exact hvc
  · exact hf
  · exact hpv
  · exact hforce
  · exact hforce
  · exact hf
  · exact rfl
  · exact one_ne_zero
  · exact rfl
  · exact rfl
  · exact hvcs

/-- Full ring shape visible-head, one invisible run, visible tail, within a
polygon: the full state after the traversal and polygonEnd. -/
theorem runSeq_clip_ring_gap_poly (sF : CState) (a0 b c0 : ℝ × ℝ)
    (as bs cs : List (ℝ × ℝ))
    (hforce : sF.forcePoint = false)
    (hfr1 : sF.firstVisiblePointInRing = none)
    (hfr2 : sF.visiblePointCount = 0)
    (hfr3 : sF.lastVisiblePointBeforeGap = none)
    (hfr4 : sF.isGapAtStart = false)
    (hfr5 : sF.isGapAtEnd = false)
    (hva : (sF.proj.project a0).visible)
    (hvas : ∀ c ∈ as, (sF.proj.project c).visible)
    (hvbs : ∀ c ∈ b :: bs, ¬(sF.proj.project c).visible)
    (hvc : (sF.proj.project c0).visible)
    (hvcs : ∀ c ∈ cs, (sF.proj.project c).visible) :
    polygonEndClip (runSeq (doPointStep clipHooks Within.poly) sF
        (a0 :: (as ++ ((b :: bs) ++ c0 :: cs))) 0).1 =
      { sF with
        firstVisiblePointInRing := some (projPt sF.proj a0),
        firstVisiblePointAfterGap := some (projPt sF.proj c0),
        lastVisiblePointBeforeGap := none,
        ctx := sF.ctx ++ [.moveTo (projPt sF.proj a0).1 (projPt sF.proj a0).2]
          ++ lineTos sF.proj as
          ++ arcGap (lastProjPt sF.proj (projPt sF.proj a0) as) (projPt sF.proj c0)
               sF.proj.pt sF.proj.k
          ++ [.lineTo (projPt sF.proj c0).1 (projPt sF.proj c0).2]
          ++ lineTos sF.proj cs,
        visiblePointCount := 1 + as.length + 1 + cs.length,
        lastVisiblePointInRing := some (lastProjPt sF.proj (projPt sF.proj c0) cs),
        previousPt := some (lastProjPt sF.proj (projPt sF.proj c0) cs),
        pointCount := sF.pointCount + 1 + as.length + (b :: bs).length + 1
          + cs.length } := by
  rw [runSeq_clip_cons,
    doPointClip_first_vis sF a0 Within.poly 0 hva hfr1 hfr2 hforce (by decide),
    runSeq_clip_append]
  refine Eq.trans (congrArg
      (fun st => polygonEndClip (runSeq (doPointStep clipHooks Within.poly) st
        ((b :: bs) ++ c0 :: cs) 0).1)
      (runSeq_clip_visrun Within.poly (by decide) as _ _ (projPt sF.proj a0)
        (projPt sF.proj a0) ?_ ?_ ?_ ?_ ?_ ?_ ?_))
    (runSeq_clip_gap_poly b c0 bs cs _ _ ?_ ?_ ?_ ?_ ?_ ?_ ?_ ?_ ?_ ?_ ?_)
  · exact hforce
  · exact Option.some_ne_none _
  · exact hfr3
  · exact one_ne_zero
  · exact rfl
  · exact rfl
  · exact hvas
  · exact hforce
  · exact Option.some_ne_none _
  · exact hfr3
  · show 1 + as.length ≠ 0
    omega
  · exact rfl
  · show sF.pointCount + 1 + as.length ≠ 0
    omega
  · exact hfr4
  · exact hfr5
  · exact hvbs
  · exact hvc
  · exact hvcs

/-- Full shape visible-head, one invisible run, visible tail, within an
open line: the full state after the traversal. -/
theorem runSeq_clip_ring_gap_line (sF : CState) (a0 b c0 : ℝ × ℝ)
    (as bs cs : List (ℝ × ℝ))
    (hforce : sF.forcePoint = false)
    (hfr1 : sF.firstVisiblePointInRing = none)
    (hfr2 : sF.visiblePointCount = 0)
    (hfr3 : sF.lastVisiblePointBeforeGap = none)
    (hva : (sF.proj.project a0).visible)
    (hvas : ∀ c ∈ as, (sF.proj.project c).visible)
    (hvbs : ∀ c ∈ b :: bs, ¬(sF.proj.project c).visible)
    (hvc : (sF.proj.project c0).visible)
    (hvcs : ∀ c ∈ cs, (sF.proj.project c).visible) :
    (runSeq (doPointStep clipHooks Within.line) sF
        (a0 :: (as ++ ((b :: bs) ++ c0 :: cs))) 0).1 =
      { sF with
        firstVisiblePointInRing := some (projPt sF.proj a0),
        firstVisiblePointAfterGap := some (projPt sF.proj c0),
        lastVisiblePointBeforeGap := none,
        ctx := sF.ctx ++ [.moveTo (projPt sF.proj a0).1 (projPt sF.proj a0).2]
          ++ lineTos sF.proj as
          ++ [.moveTo (projPt sF.proj c0).1 (projPt sF.proj c0).2]
          ++ lineTos sF.proj cs,
        visiblePointCount := 1 + cs.length,
        lastVisiblePointInRing := some (lastProjPt sF.proj (projPt sF.proj c0) cs),
        previousPt := some (lastProjPt sF.proj (projPt sF.proj c0) cs),
        pointCount := sF.pointCount + 1 + as.length + (b :: bs).length + 1
          + cs.length } := by
  rw [runSeq_clip_cons,
    doPointClip_first_vis sF a0 Within.line 0 hva hfr1 hfr2 hforce (by decide),
    runSeq_clip_append]
  refine Eq.trans (congrArg
      (fun st => (runSeq (doPointStep clipHooks Within.line) st
        ((b :: bs) ++ c0 :: cs) 0).1)
      (runSeq_clip_visrun Within.line (by decide) as _ _ (projPt sF.proj a0)
        (projPt sF.proj a0) ?_ ?_ ?_ ?_ ?_ ?_ ?_))
    (runSeq_clip_gap_line b c0 bs cs _ (lastProjPt sF.proj (projPt sF.proj a0) as)
      ?_ ?_ ?_ ?_ ?_ ?_ ?_ ?_ ?_)
  · exact hforce
  · exact Option.some_ne_none _
  · exact hfr3
  · exact one_ne_zero
  · exact rfl
  · exact rfl
  · exact hvas
  · exact hforce
  · exact Option.some_ne_none _
  · exact hfr3
  · show 1 + as.length ≠ 0
    omega
  · exact rfl
  · show sF.pointCount + 1 + as.length ≠ 0
    omega
  · exact hvbs
  · exact hvc
  · exact hvcs

/-- Claim C4 (theorem): for a closed ring with exactly one contiguous
invisible run strictly inside it, GeoIteratorClip emits exactly one
bridging-arc sequence, at the first visible point after the gap, then
resumes lineTo emission and adds nothing at ring end; for an open
LineString in the same situation no arc is emitted and the first visible
point after the gap is emitted with a moveTo (the connecting segment is
suppressed). -/
theorem clip_gap_single_arc :
    ∀ (s0 : CState) (a0 c0 : ℝ × ℝ) (as bs cs : List (ℝ × ℝ)),
      s0.forcePoint = false →
      (s0.proj.project a0).visible →
      (∀ c ∈ as, (s0.proj.project c).visible) →
      bs ≠ [] →
      (∀ c ∈ bs, ¬(s0.proj.project c).visible) →
      (s0.proj.project c0).visible →
      (∀ c ∈ cs, (s0.proj.project c).visible) →
      ((iteratePolygon clipHooks s0 [a0 :: (as ++ (bs ++ c0 :: cs))]).1).ctx =
        s0.ctx ++ [.moveTo (projPt s0.proj a0).1 (projPt s0.proj a0).2]
          ++ lineTos s0.proj as
          ++ arcGap (lastProjPt s0.proj (projPt s0.proj a0) as) (projPt s0.proj c0)
               s0.proj.pt s0.proj.k
          ++ [.lineTo (projPt s0.proj c0).1 (projPt s0.proj c0).2]
          ++ lineTos s0.proj cs ∧
      ((iterateLine clipHooks s0 (a0 :: (as ++ (bs ++ c0 :: cs)))).1).ctx =
        s0.ctx ++ [.moveTo (projPt s0.proj a0).1 (projPt s0.proj a0).2]
          ++ lineTos s0.proj as
          ++ [.moveTo (projPt s0.proj c0).1 (projPt s0.proj c0).2]
          ++ lineTos s0.proj cs := by
  intro s0 a0 c0 as bs cs hforce hva hvas hbne hvbs hvc hvcs
  cases bs with
  | nil => exact absurd rfl hbne
  | cons b bs2 =>
  constructor
  · rw [iteratePolygonClip_run,
      runSeq_clip_ring_gap_poly (polygonStartClip s0).1 a0 b c0 as bs2 cs
        hforce rfl rfl rfl rfl rfl hva hvas hvbs hvc hvcs]
    rfl
  · rw [iterateLineClip_run,
      runSeq_clip_ring_gap_line (polygonStartClip s0).1 a0 b c0 as bs2 cs
        hforce rfl rfl rfl hva hvas hvbs hvc hvcs]
    rfl

/-! Evaluation lemmas for a concrete orthographic projection state, used to
discharge the visibility hypotheses at the witness input. -/

theorem jsmod_zero_360 : jsmod 0 360 = 0 := by
  norm_num [jsmod]

theorem radians_zero : radians 0 = 0 := by
  simp [radians]

theorem radians_180 : radians 180 = π := by
  rw [radians]
  ring

theorem wrapPi_zero : wrapPi 0 = 0 := by
  have hπ := Real.pi_pos
  unfold wrapPi
  rw [if_neg (by linarith), if_neg (by linarith)]

theorem wrapPi_pi : wrapPi π = π := by
  have hπ := Real.pi_pos
  unfold wrapPi
  rw [if_neg (by linarith), if_neg (by linarith)]

theorem asin_zero : voyc.asin 0 = 0 := by
  unfold voyc.asin
  rw [if_neg (by norm_num), if_neg (by norm_num), Real.arcsin_zero]

theorem ortho00_dLam : (orthoProjState 0 (200, 200) 0).dLam = 0 := by
  have h : (orthoProjState 0 (200, 200) 0).dLam = radians (jsmod 0 360) := rfl
  rw [h, jsmod_zero_360, radians_zero]

theorem ortho00_cosdPhi : (orthoProjState 0 (200, 200) 0).cosdPhi = 1 := by
  have h : (orthoProjState 0 (200, 200) 0).cosdPhi =
      Real.cos (radians (jsmod 0 360)) := rfl
  rw [h, jsmod_zero_360, radians_zero, Real.cos_zero]

theorem ortho00_sindPhi : (orthoProjState 0 (200, 200) 0).sindPhi = 0 := by
  have h : (orthoProjState 0 (200, 200) 0).sindPhi =
      Real.sin (radians (jsmod 0 360)) := rfl
  rw [h, jsmod_zero_360, radians_zero, Real.sin_zero]

theorem ortho00_cosdGam : (orthoProjState 0 (200, 200) 0).cosdGam = 1 := by
  have h : (orthoProjState 0 (200, 200) 0).cosdGam =
      Real.cos (radians (jsmod 0 360)) := rfl
  rw [h, jsmod_zero_360, radians_zero, Real.cos_zero]

theorem ortho00_sindGam : (orthoProjState 0 (200, 200) 0).sindGam = 0 := by
  have h : (orthoProjState 0 (200, 200) 0).sindGam =
      Real.sin (radians (jsmod 0 360)) := rfl
  rw [h, jsmod_zero_360, radians_zero, Real.sin_zero]

theorem ortho00_cr : (orthoProjState 0 (200, 200) 0).cr = 0 := by
  have h : (orthoProjState 0 (200, 200) 0).cr = Real.cos (radians 90) := rfl
  rw [h, radians, show (90 : ℝ) * (π / 180) = π / 2 by ring, Real.cos_pi_div_two]

theorem ortho00_vis_origin :
    ((orthoProjState (0, 0, 0) (200, 200) 0).project (0, 0)).visible := by
  have hmx : (orthoProjState 0 (200, 200) 0).mixer = mixer 0 := rfl
  simp [Projection.project, hmx, mixer, Projection.isPointVisible,
    ortho00_dLam, ortho00_cosdPhi, ortho00_sindPhi, ortho00_cosdGam, ortho00_sindGam,
    ortho00_cr, radians_zero, wrapPi_zero, atan2_zero_one, asin_zero]

theorem ortho00_invis_antipode :
    ¬ ((orthoProjState (0, 0, 0) (200, 200) 0).project (180, 0)).visible := by
  have hmx : (orthoProjState 0 (200, 200) 0).mixer = mixer 0 := rfl
  have hat : atan2 0 (-1) = π := atan2_zero_neg (by norm_num)
  simp [Projection.project, hmx, mixer, Projection.isPointVisible,
    ortho00_dLam, ortho00_cosdPhi, ortho00_sindPhi, ortho00_cosdGam, ortho00_sindGam,
    ortho00_cr, radians_zero, radians_180, wrapPi_pi, hat, asin_zero]

/-- Witness for C4 on an orthographic globe centered at lng 0, lat 0: the
ring (0,0) to (180,0) and back has its middle coordinate on the hidden
hemisphere. -/
theorem clip_gap_single_arc_witness :
    ((iteratePolygon clipHooks (cstate0 (orthoProjState (0, 0, 0) (200, 200) 0))
        [[((0 : ℝ), (0 : ℝ)), (180, 0), (0, 0)]]).1).ctx =
      [.moveTo (projPt (orthoProjState (0, 0, 0) (200, 200) 0) (0, 0)).1
          (projPt (orthoProjState (0, 0, 0) (200, 200) 0) (0, 0)).2]
        ++ arcGap (projPt (orthoProjState (0, 0, 0) (200, 200) 0) (0, 0))
            (projPt (orthoProjState (0, 0, 0) (200, 200) 0) (0, 0))
            (orthoProjState (0, 0, 0) (200, 200) 0).pt
            (orthoProjState (0, 0, 0) (200, 200) 0).k
        ++ [.lineTo (projPt (orthoProjState (0, 0, 0) (200, 200) 0) (0, 0)).1
            (projPt (orthoProjState (0, 0, 0) (200, 200) 0) (0, 0)).2] ∧
    ((iterateLine clipHooks (cstate0 (orthoProjState (0, 0, 0) (200, 200) 0))
        [((0 : ℝ), (0 : ℝ)), (180, 0), (0, 0)]).1).ctx =
      [.moveTo (projPt (orthoProjState (0, 0, 0) (200, 200) 0) (0, 0)).1
          (projPt (orthoProjState (0, 0, 0) (200, 200) 0) (0, 0)).2]
        ++ [.moveTo (projPt (orthoProjState (0, 0, 0) (200, 200) 0) (0, 0)).1
            (projPt (orthoProjState (0, 0, 0) (200, 200) 0) (0, 0)).2] :=
  clip_gap_single_arc (cstate0 (orthoProjState (0, 0, 0) (200, 200) 0)) (0, 0) (0, 0)
    [] [(180, 0)] [] rfl ortho00_vis_origin (by simp) (by simp)
    (by
      intro c hc
      rw [List.mem_singleton] at hc
      subst hc
      exact ortho00_invis_antipode)
    ortho00_vis_origin (by simp)

/-- Claim C5 (theorem): at ring end, when both ring trackers are set,
polygonEnd first marks gap-at-end exactly when the previous-point tracker is
absent, then emits the closing arc from the last visible point back to the
first visible point followed by a lineTo to that first point exactly when
the ring had a visible point and a gap existed at its start or end;
otherwise it emits nothing. -/
theorem clip_ring_end_arc :
    ∀ (s : CState) (lv fv : ℝ × ℝ),
      s.lastVisiblePointInRing = some lv →
      s.firstVisiblePointInRing = some fv →
      ((polygonEndClip s).ctx =
        s.ctx ++
          (if s.visiblePointCount ≠ 0 ∧
              (s.isGapAtStart = true ∨ s.isGapAtEnd = true ∨ s.previousPt = none)
           then arcGap lv fv s.proj.pt s.proj.k ++ [.lineTo fv.1 fv.2]
           else [])) ∧
      ((polygonEndClip s).isGapAtEnd = true ↔
        (s.isGapAtEnd = true ∨ s.previousPt = none)) := by
  intro s lv fv hlv hfv
  by_cases hprev : s.previousPt = none <;>
    by_cases hv : s.visiblePointCount = 0 <;>
      by_cases hgs : s.isGapAtStart = true <;>
        by_cases hge : s.isGapAtEnd = true <;>
          constructor <;>
            simp [polygonEndClip, hprev, hlv, hfv, hv, hgs, hge, List.append_assoc]

/-- Witness for C5: a ring state with one visible point, set trackers, a
gap at the ring start and a live previous point emits the closing arc and
the lineTo back to the first visible point. -/
theorem clip_ring_end_arc_witness :
    (polygonEndClip { cstate0 Projection.init with
        lastVisiblePointInRing := some (1, 2),
        firstVisiblePointInRing := some (3, 4),
        visiblePointCount := 1,
        isGapAtStart := true,
        previousPt := some (5, 6) }).ctx =
      arcGap (1, 2) (3, 4) Projection.init.pt Projection.init.k ++
        [.lineTo 3 4] := by
  have h := (clip_ring_end_arc
    { cstate0 Projection.init with
        lastVisiblePointInRing := some (1, 2),
        firstVisiblePointInRing := some (3, 4),
        visiblePointCount := 1,
        isGapAtStart := true,
        previousPt := some (5, 6) } (1, 2) (3, 4) rfl rfl).1
  simp [cstate0] at h
  exact h

/-! Evaluation of project() and invert() on an orthographic-only mixer, and
field lemmas for orthoProjState with a general rotation, translation and
zoom. -/

theorem project_ortho (p : Projection) (co : ℝ × ℝ)
    (hmo : p.mixer.orthographic = true) (hmc : p.mixer.cylindrical = false) :
    p.project co =
      { x := if p.isPointVisible (orthoL2 p co) (orthoF2 p co) then
               some (Real.cos (orthoF2 p co) * Real.sin (orthoL2 p co) * p.k + p.dx)
             else none,
        y := if p.isPointVisible (orthoL2 p co) (orthoF2 p co) then
               some (p.dy - Real.sin (orthoF2 p co) * p.k)
             else none,
        visible := p.isPointVisible (orthoL2 p co) (orthoF2 p co) } := by
  unfold Projection.project orthoL2 orthoF2
  rw [hmo, hmc]
  simp [apply_ite]

theorem invert_ortho (p : Projection) (q : ℝ × ℝ)
    (hmo : p.mixer.orthographic = true) :
    p.invert q =
      { lng := some (degrees (wrapPi (invL2 p q - p.dLam))),
        lat := some (degrees (invF2 p q)),
        visible := p.isPointInCircle q.1 q.2 } := by
  unfold Projection.invert invL2 invF2
  rw [hmo]
  simp

theorem ortho_dLam (ro : ℝ × ℝ × ℝ) (t : ℝ × ℝ) (z : ℝ) :
    (orthoProjState ro t z).dLam = radians (jsmod ro.1 360) := rfl

theorem ortho_cosdPhi (ro : ℝ × ℝ × ℝ) (t : ℝ × ℝ) (z : ℝ) :
    (orthoProjState ro t z).cosdPhi = Real.cos ((orthoProjState ro t z).dPhi) := rfl

theorem ortho_sindPhi (ro : ℝ × ℝ × ℝ) (t : ℝ × ℝ) (z : ℝ) :
    (orthoProjState ro t z).sindPhi = Real.sin ((orthoProjState ro t z).dPhi) := rfl

theorem ortho_cosdGam (ro : ℝ × ℝ × ℝ) (t : ℝ × ℝ) (z : ℝ) :
    (orthoProjState ro t z).cosdGam = Real.cos ((orthoProjState ro t z).dGam) := rfl

theorem ortho_sindGam (ro : ℝ × ℝ × ℝ) (t : ℝ × ℝ) (z : ℝ) :
    (orthoProjState ro t z).sindGam = Real.sin ((orthoProjState ro t z).dGam) := rfl

theorem ortho_cr (ro : ℝ × ℝ × ℝ) (t : ℝ × ℝ) (z : ℝ) :
    (orthoProjState ro t z).cr = 0 := by
  have h : (orthoProjState ro t z).cr = Real.cos (radians 90) := rfl
  rw [h, radians, show (90 : ℝ) * (π / 180) = π / 2 by ring, Real.cos_pi_div_two]

theorem ortho_k_pos (ro : ℝ × ℝ × ℝ) (t : ℝ × ℝ) (z : ℝ)
    (ht1 : 0 < t.1) (ht2 : 0 < t.2) : 0 < (orthoProjState ro t z).k := by
  have h : (orthoProjState ro t z).k
      = (2 : ℝ) ^ z * (min (t.1 * 2) (t.2 * 2) / 2 / π) := rfl
  rw [h]
  have hmin : 0 < min (t.1 * 2) (t.2 * 2) := lt_min (by linarith) (by linarith)
  have hπ := Real.pi_pos
  have h2 : (0 : ℝ) < (2 : ℝ) ^ z := Real.rpow_pos_of_pos two_pos z
  positivity

theorem ortho_dLam_bounds (ro : ℝ × ℝ × ℝ) (t : ℝ × ℝ) (z : ℝ) :
    -(2 * π) < (orthoProjState ro t z).dLam ∧ (orthoProjState ro t z).dLam < 2 * π := by
  rw [ortho_dLam]
  have h := jsmod_360_bounds ro.1
  unfold radians
  have hπ := Real.pi_pos
  constructor <;> nlinarith [h.1, h.2]

theorem wrapPi_int_shift {x : ℝ} (n : ℤ) (h1 : -π < x) (h2 : x < π)
    (hn : n = -1 ∨ n = 0 ∨ n = 1) :
    wrapPi (x + 2 * π * n) = x := by
  have hπ := Real.pi_pos
  unfold wrapPi τ
  rcases hn with rfl | rfl | rfl
  · rw [if_neg (by push_cast; linarith), if_pos (by push_cast; linarith)]
    push_cast
    ring
  · rw [if_neg (by push_cast; linarith), if_neg (by push_cast; linarith)]
    push_cast
    ring
  · rw [if_pos (by push_cast; linarith)]
    push_cast
    ring

set_option maxHeartbeats 1600000 in
/-- Claim C1 (amended theorem): the orthographic half of the round-trip
law.  On the orthographic-only preset with any rotation, a positive
viewport translation and any zoom, invert(project(c)) recovers c exactly
for every visible coordinate with lng strictly inside (-180,180), lat
strictly inside (-90,90), away from the antimeridian seam of the rotated
frame.  (The cylindrical half of the claim is refuted separately: the
soupcan longitude transform and the unconditional mercatorShrink of
invert() are not inverses of the forward path.) -/
theorem invert_project_roundtrip_ortho :
    ∀ (ro : ℝ × ℝ × ℝ) (t : ℝ × ℝ) (z lng lat : ℝ),
      0 < t.1 → 0 < t.2 →
      -180 < lng → lng < 180 → -90 < lat → lat < 90 →
      wrapPi (radians lng + (orthoProjState ro t z).dLam) ≠ -π →
      ((orthoProjState ro t z).project (lng, lat)).visible →
      ((orthoProjState ro t z).invert
          (((orthoProjState ro t z).project (lng, lat)).x.getD 0,
           ((orthoProjState ro t z).project (lng, lat)).y.getD 0)).lng = some lng ∧
      ((orthoProjState ro t z).invert
          (((orthoProjState ro t z).project (lng, lat)).x.getD 0,
           ((orthoProjState ro t z).project (lng, lat)).y.getD 0)).lat = some lat := by
  intro ro t z lng lat ht1 ht2 hlngl hlngr hlatl hlatr hbound hvis
  set p := orthoProjState ro t z with hpdef
  have hπ := Real.pi_pos
  have hmo : p.mixer.orthographic = true := rfl
  have hmc : p.mixer.cylindrical = false := rfl
  have hcp : p.cosdPhi = Real.cos p.dPhi := rfl
  have hsp : p.sindPhi = Real.sin p.dPhi := rfl
  have hcg : p.cosdGam = Real.cos p.dGam := rfl
  have hsg : p.sindGam = Real.sin p.dGam := rfl
  have hcr : p.cr = 0 := by rw [hpdef]; exact ortho_cr ro t z
  have hk : 0 < p.k := by rw [hpdef]; exact ortho_k_pos ro t z ht1 ht2
  have hkne : p.k ≠ 0 := ne_of_gt hk
  have hdb : -(2 * π) < p.dLam ∧ p.dLam < 2 * π := by
    rw [hpdef]; exact ortho_dLam_bounds ro t z
  have hrl : -π < radians lng := neg_pi_lt_radians hlngl
  have hrr : radians lng < π := radians_lt_pi hlngr
  have hf0l : -(π / 2) < radians lat := by
    unfold radians
    nlinarith only [hlatl, hπ]
  have hf0r : radians lat < π / 2 := by
    unfold radians
    nlinarith only [hlatr, hπ]
  have hcosf0 : 0 < Real.cos (radians lat) :=
    Real.cos_pos_of_mem_Ioo ⟨hf0l, hf0r⟩
  set l1 := wrapPi (radians lng + p.dLam) with hl1def
  have hl1m : -π ≤ l1 ∧ l1 ≤ π := by
    rw [hl1def]
    exact wrapPi_mem (by linarith only [hdb.1, hrl]) (by linarith only [hdb.2, hrr])
  have hl1lb : -π < l1 := lt_of_le_of_ne hl1m.1 (Ne.symm hbound)
  set f0 := radians lat with hf0def
  set x1 := Real.cos l1 * Real.cos f0 with hx1def
  set y1 := Real.sin l1 * Real.cos f0 with hy1def
  set z1 := Real.sin f0 with hz1def
  set k0 := z1 * p.cosdPhi + x1 * p.sindPhi with hk0def
  set X2 := x1 * p.cosdPhi - z1 * p.sindPhi with hX2def
  set Y2 := y1 * p.cosdGam - k0 * p.sindGam with hY2def
  set Z2 := k0 * p.cosdGam + y1 * p.sindGam with hZ2def
  have hL : orthoL2 p (lng, lat) = atan2 Y2 X2 := by
    rw [hY2def, hX2def, hk0def, hx1def, hy1def, hz1def, hf0def, hl1def]
    rfl
  have hF : orthoF2 p (lng, lat) = voyc.asin Z2 := by
    rw [hZ2def, hk0def, hx1def, hy1def, hz1def, hf0def, hl1def]
    rfl
  have hφ : p.sindPhi ^ 2 + p.cosdPhi ^ 2 = 1 := by
    rw [hsp, hcp]; exact Real.sin_sq_add_cos_sq _
  have hγ : p.sindGam ^ 2 + p.cosdGam ^ 2 = 1 := by
    rw [hsg, hcg]; exact Real.sin_sq_add_cos_sq _
  have hu1 : x1 ^ 2 + y1 ^ 2 + z1 ^ 2 = 1 := by
    rw [hx1def, hy1def, hz1def]
    linear_combination (Real.cos f0) ^ 2 * Real.sin_sq_add_cos_sq l1 +
      Real.sin_sq_add_cos_sq f0
  have hu2 : X2 ^ 2 + Y2 ^ 2 + Z2 ^ 2 = 1 := by
    rw [hX2def, hY2def, hZ2def, hk0def]
    linear_combination (x1 ^ 2 + z1 ^ 2) * hφ +
      (y1 ^ 2 + (z1 * p.cosdPhi + x1 * p.sindPhi) ^ 2) * hγ + hu1
  have hZ2a : -1 ≤ Z2 := by
    nlinarith only [hu2, sq_nonneg X2, sq_nonneg Y2, sq_nonneg (Z2 + 1)]
  have hZ2b : Z2 ≤ 1 := by
    nlinarith only [hu2, sq_nonneg X2, sq_nonneg Y2, sq_nonneg (Z2 - 1)]
  have hFarc : orthoF2 p (lng, lat) = Real.arcsin Z2 := by
    rw [hF]; exact asin_eq_arcsin hZ2a hZ2b
  have hrec := @unit_sphere_recovery X2 Y2 Z2 hu2
  have hcc : Real.cos (orthoL2 p (lng, lat)) * Real.cos (orthoF2 p (lng, lat)) = X2 := by
    rw [hL, hFarc]; exact hrec.1
  have hsc : Real.sin (orthoL2 p (lng, lat)) * Real.cos (orthoF2 p (lng, lat)) = Y2 := by
    rw [hL, hFarc]; exact hrec.2.1
  have hsF : Real.sin (orthoF2 p (lng, lat)) = Z2 := by
    rw [hFarc]; exact hrec.2.2
  have hvisP : p.isPointVisible (orthoL2 p (lng, lat)) (orthoF2 p (lng, lat)) := by
    have h := hvis
    rw [project_ortho p (lng, lat) hmo hmc] at h
    exact h
  have hX2pos : 0 < X2 := by
    have h := hvisP
    unfold Projection.isPointVisible at h
    rw [hcr, hcc] at h
    exact h
  set PX := Real.cos (orthoF2 p (lng, lat)) * Real.sin (orthoL2 p (lng, lat)) * p.k + p.dx
    with hPXdef
  set PY := p.dy - Real.sin (orthoF2 p (lng, lat)) * p.k with hPYdef
  have hgx : (p.project (lng, lat)).x.getD 0 = PX := by
    rw [project_ortho p (lng, lat) hmo hmc]
    show (if p.isPointVisible (orthoL2 p (lng, lat)) (orthoF2 p (lng, lat)) then
        some (Real.cos (orthoF2 p (lng, lat)) * Real.sin (orthoL2 p (lng, lat)) * p.k + p.dx)
      else none).getD 0 = PX
    rw [if_pos hvisP, hPXdef]
    rfl
  have hgy : (p.project (lng, lat)).y.getD 0 = PY := by
    rw [project_ortho p (lng, lat) hmo hmc]
    show (if p.isPointVisible (orthoL2 p (lng, lat)) (orthoF2 p (lng, lat)) then
        some (p.dy - Real.sin (orthoF2 p (lng, lat)) * p.k)
      else none).getD 0 = PY
    rw [if_pos hvisP, hPYdef]
    rfl
  rw [hgx, hgy]
  set xI := (PX - p.dx) / p.k with hxIdef
  set yI := (p.dy - PY) / p.k with hyIdef
  have hxIv : xI = Y2 := by
    rw [hxIdef, hPXdef, ← hsc]
    field_simp
    ring
  have hyIv : yI = Z2 := by
    rw [hyIdef, hPYdef, ← hsF]
    field_simp
  set rho := Real.sqrt (xI * xI + yI * yI) with hrhodef
  have hrhosq : rho ^ 2 = 1 - X2 ^ 2 := by
    rw [hrhodef,
      Real.sq_sqrt (by linarith only [mul_self_nonneg xI, mul_self_nonneg yI]),
      hxIv, hyIv]
    linear_combination hu2
  have hrho0le : 0 ≤ rho := by rw [hrhodef]; positivity
  have hrho1 : rho ≤ 1 := by nlinarith only [hrhosq, sq_nonneg X2, hrho0le]
  have hcIa : voyc.asin rho = Real.arcsin rho :=
    asin_eq_arcsin (by linarith only [hrho0le]) hrho1
  have hsincI : Real.sin (voyc.asin rho) = rho := by
    rw [hcIa]; exact Real.sin_arcsin (by linarith only [hrho0le]) hrho1
  have hcoscI : Real.cos (voyc.asin rho) = X2 := by
    rw [hcIa, Real.cos_arcsin, show 1 - rho ^ 2 = X2 ^ 2 by linarith only [hrhosq]]
    exact Real.sqrt_sq hX2pos.le
  set lI := atan2 (xI * Real.sin (voyc.asin rho)) (rho * Real.cos (voyc.asin rho))
    with hlIdef
  set fI := Real.arcsin (if rho = 0 then 0 else yI * Real.sin (voyc.asin rho) / rho)
    with hfIdef
  have hlfI : lI = atan2 Y2 X2 ∧ fI = Real.arcsin Z2 := by
    by_cases hrho0 : rho = 0
    · have hsqz : xI * xI + yI * yI = 0 :=
        (Real.sqrt_eq_zero
          (by linarith only [mul_self_nonneg xI, mul_self_nonneg yI])).mp
          (hrhodef.symm.trans hrho0)
      have hxI2 : xI ^ 2 + yI ^ 2 = 0 := by
        linear_combination hsqz
      have hxI0 : xI = 0 := by
        have h1 : xI ^ 2 = 0 :=
          le_antisymm (by linarith only [hxI2, sq_nonneg yI]) (sq_nonneg xI)
        exact sq_eq_zero_iff.mp h1
      have hyI0 : yI = 0 := by
        have h1 : yI ^ 2 = 0 :=
          le_antisymm (by linarith only [hxI2, sq_nonneg xI]) (sq_nonneg yI)
        exact sq_eq_zero_iff.mp h1
      have hY2z : Y2 = 0 := by rw [← hxIv]; exact hxI0
      have hZ2z : Z2 = 0 := by rw [← hyIv]; exact hyI0
      have hfac : (X2 - 1) * (X2 + 1) = 0 := by
        linear_combination hu2 - Y2 * hY2z - Z2 * hZ2z
      have hX21 : X2 = 1 := by
        rcases mul_eq_zero.mp hfac with h | h
        · linarith only [h]
        · linarith only [h, hX2pos]
      constructor
      · rw [hlIdef, hrho0, hxI0, hY2z, hX21]
        simp [atan2_zero_zero, atan2_zero_one]
      · rw [hfIdef, if_pos hrho0, hZ2z]
    · have hrhop : 0 < rho := lt_of_le_of_ne hrho0le (Ne.symm hrho0)
      constructor
      · rw [hlIdef, hsincI, hcoscI, hxIv, mul_comm Y2 rho]
        exact atan2_scale hrhop
      · rw [hfIdef, if_neg hrho0, hsincI, hyIv, mul_div_assoc, div_self hrho0, mul_one]
  obtain ⟨hlIv, hfIv⟩ := hlfI
  have hxx : Real.cos lI * Real.cos fI = X2 := by rw [hlIv, hfIv]; exact hrec.1
  have hyy : Real.sin lI * Real.cos fI = Y2 := by rw [hlIv, hfIv]; exact hrec.2.1
  have hzz : Real.sin fI = Z2 := by rw [hfIv]; exact hrec.2.2
  have hIL : invL2 p (PX, PY) = atan2
      (Real.sin lI * Real.cos fI * p.cosdGam + Real.sin fI * p.sindGam)
      (Real.cos lI * Real.cos fI * p.cosdPhi +
        (Real.sin fI * p.cosdGam - Real.sin lI * Real.cos fI * p.sindGam) * p.sindPhi) := by
    rw [hlIdef, hfIdef, hrhodef, hxIdef, hyIdef]
    rfl
  have hyarg : Real.sin lI * Real.cos fI * p.cosdGam + Real.sin fI * p.sindGam = y1 := by
    rw [hyy, hzz, hY2def, hZ2def, hk0def]
    linear_combination y1 * hγ
  have hxarg : Real.cos lI * Real.cos fI * p.cosdPhi +
      (Real.sin fI * p.cosdGam - Real.sin lI * Real.cos fI * p.sindGam) * p.sindPhi
      = x1 := by
    rw [hxx, hyy, hzz, hX2def, hY2def, hZ2def, hk0def]
    linear_combination x1 * hφ + p.sindPhi * (z1 * p.cosdPhi + x1 * p.sindPhi) * hγ
  have hILl1 : invL2 p (PX, PY) = l1 := by
    rw [hIL, hyarg, hxarg, hx1def, hy1def, mul_comm (Real.sin l1) (Real.cos f0),
      mul_comm (Real.cos l1) (Real.cos f0)]
    exact atan2_cos_sin hcosf0 ⟨hl1lb, hl1m.2⟩
  have hIF : invF2 p (PX, PY) = voyc.asin
      ((Real.sin fI * p.cosdGam - Real.sin lI * Real.cos fI * p.sindGam) * p.cosdPhi -
        Real.cos lI * Real.cos fI * p.sindPhi) := by
    rw [hlIdef, hfIdef, hrhodef, hxIdef, hyIdef]
    rfl
  have hzarg : (Real.sin fI * p.cosdGam - Real.sin lI * Real.cos fI * p.sindGam) * p.cosdPhi -
      Real.cos lI * Real.cos fI * p.sindPhi = z1 := by
    rw [hxx, hyy, hzz, hX2def, hY2def, hZ2def, hk0def]
    linear_combination z1 * hφ + p.cosdPhi * (z1 * p.cosdPhi + x1 * p.sindPhi) * hγ
  have hIFv : invF2 p (PX, PY) = f0 := by
    rw [hIF, hzarg, hz1def,
      asin_eq_arcsin (Real.neg_one_le_sin f0) (Real.sin_le_one f0)]
    exact Real.arcsin_sin (by linarith only [hf0l]) (by linarith only [hf0r])
  obtain ⟨n, hn⟩ := wrapPi_shift (radians lng + p.dLam)
  rw [← hl1def] at hn
  have hnb : n = -1 ∨ n = 0 ∨ n = 1 := by
    have hlin : 2 * π * (n : ℝ) = l1 - radians lng - p.dLam := by linarith only [hn]
    have hub : 2 * π * (n : ℝ) < 2 * π * 2 := by
      rw [hlin]
      linarith only [hl1m.2, hrl, hdb.1]
    have hlb2 : 2 * π * (-2 : ℝ) < 2 * π * (n : ℝ) := by
      rw [hlin]
      linarith only [hl1m.1, hrr, hdb.2]
    have hnr1 : (n : ℝ) < 2 := lt_of_mul_lt_mul_left hub (by linarith only [hπ])
    have hnr2 : (-2 : ℝ) < (n : ℝ) := lt_of_mul_lt_mul_left hlb2 (by linarith only [hπ])
    have hni1 : n < 2 := by exact_mod_cast hnr1
    have hni2 : -2 < n := by exact_mod_cast hnr2
    omega
  have hwrap : wrapPi (invL2 p (PX, PY) - p.dLam) = radians lng := by
    rw [hILl1, show l1 - p.dLam = radians lng + 2 * π * (n : ℝ) by linarith only [hn]]
    exact wrapPi_int_shift n hrl hrr hnb
  constructor
  · rw [invert_ortho p (PX, PY) hmo]
    show some (degrees (wrapPi (invL2 p (PX, PY) - p.dLam))) = some lng
    rw [hwrap, degrees_radians]
  · rw [invert_ortho p (PX, PY) hmo]
    show some (degrees (invF2 p (PX, PY))) = some lat
    rw [hIFv, hf0def, degrees_radians]

/-- Witness for C1 (amended) at the identity rotation, viewport center
(200,200), zoom 0 and the coordinate (0,0). -/
theorem invert_project_roundtrip_ortho_witness :
    ((orthoProjState (0, 0, 0) (200, 200) 0).invert
        (((orthoProjState (0, 0, 0) (200, 200) 0).project (0, 0)).x.getD 0,
         ((orthoProjState (0, 0, 0) (200, 200) 0).project (0, 0)).y.getD 0)).lng
      = some 0 ∧
    ((orthoProjState (0, 0, 0) (200, 200) 0).invert
        (((orthoProjState (0, 0, 0) (200, 200) 0).project (0, 0)).x.getD 0,
         ((orthoProjState (0, 0, 0) (200, 200) 0).project (0, 0)).y.getD 0)).lat
      = some 0 :=
  invert_project_roundtrip_ortho (0, 0, 0) (200, 200) 0 0 0
    (by norm_num) (by norm_num) (by norm_num) (by norm_num) (by norm_num) (by norm_num)
    (by
      have h : (orthoProjState (0, 0, 0) (200, 200) 0).dLam = 0 := ortho00_dLam
      rw [h, radians_zero, add_zero, wrapPi_zero]
      intro heq
      have hπ := Real.pi_pos
      linarith [heq.symm])
    ortho00_vis_origin

/-- Evaluation of project() on a cylindrical-only mixer: no clipping, the
visible flag is true unconditionally. -/
theorem project_cyl (p : Projection) (co : ℝ × ℝ)
    (hmo : p.mixer.orthographic = false) (hmc : p.mixer.cylindrical = true) :
    p.project co =
      (let lat0 := 0 - co.2
       let lat1 := if p.mixer.mercator = true then
           (let latc := clamp lat0 (0 - p.latClamp) p.latClamp
            latc + (mercatorStretch latc - latc) * p.mf)
         else lat0
       let lng1 := co.1 - p.co.1
       let lat2 := lat1 - p.co.2
       let lng2 := if p.mixer.soupcan = true then degrees (Real.sin (radians lng1))
         else lng1
       { x := some (lng2 * p.pxlPerDgr + p.pt.1),
         y := some (lat2 * p.pxlPerDgr + p.pt.2),
         visible := True }) := by
  unfold Projection.project
  rw [hmo, hmc]
  simp

/-- Evaluation of invert() on a cylindrical-only mixer: the longitude is
rescaled and recentered, then wrapped; mercatorShrink is applied to the
latitude unconditionally. -/
theorem invert_cyl (p : Projection) (q : ℝ × ℝ)
    (hmo : p.mixer.orthographic = false) (hmc : p.mixer.cylindrical = true) :
    p.invert q =
      (let x := q.1 - p.pt.1
       let y := q.2 - p.pt.2
       let lng := x / p.pxlPerDgr + p.co.1
       let lat := 0 - mercatorShrink (y / p.pxlPerDgr + p.co.2)
       let lng2 := if lng > 180 then -180 + jsmod lng 180 else lng
       let lng3 := if lng2 < -180 then 180 + jsmod lng2 180 else lng2
       { lng := some lng3, lat := some lat,
         visible := p.isVisibleExtent q.1 q.2 }) := by
  unfold Projection.invert
  rw [hmo, hmc]
  simp

/-- Claim C1 (counterexample): on the pure-cylindrical preset of mixer
row 4 the round trip fails.  The forward path passes the longitude through
the soupcan transform degrees(sin(radians lng)) but invert() only rescales
and recenters, so projecting the visible coordinate (90,0) and inverting
the result returns longitude 180/pi, not 90. -/
theorem cyl_roundtrip_fails :
    ((cylProjState.project (90, 0)).visible) ∧
    (cylProjState.invert ((cylProjState.project (90, 0)).x.getD 0,
        (cylProjState.project (90, 0)).y.getD 0)).lng ≠ some 90 := by
  have hmo : cylProjState.mixer.orthographic = false := rfl
  have hmc : cylProjState.mixer.cylindrical = true := rfl
  have hms : cylProjState.mixer.soupcan = true := rfl
  have hmm : cylProjState.mixer.mercator = false := rfl
  have hπ3 := Real.pi_gt_three
  have hπ := Real.pi_pos
  have hco : cylProjState.co = (0, 0) := by
    have h : cylProjState.co = (0 - 0, 0) := rfl
    rw [h]
    norm_num
  have hpt : cylProjState.pt = (200, 200) := rfl
  have hpx : cylProjState.pxlPerDgr = 10 / 9 := by
    have h : cylProjState.pxlPerDgr
        = (2 : ℝ) ^ (0 : ℝ) * (min ((200 : ℝ) * 2) ((200 : ℝ) * 2) / 360) := rfl
    rw [h, Real.rpow_zero]
    norm_num
  have hL : degrees (Real.sin (radians 90)) = 180 / π := by
    rw [radians, show (90 : ℝ) * (π / 180) = π / 2 by ring, Real.sin_pi_div_two, degrees]
    norm_num
  have hx : (cylProjState.project (90, 0)).x.getD 0 = 180 / π * (10 / 9) + 200 := by
    rw [project_cyl cylProjState (90, 0) hmo hmc]
    show degrees (Real.sin (radians ((90 : ℝ) - cylProjState.co.1))) *
        cylProjState.pxlPerDgr + cylProjState.pt.1 = 180 / π * (10 / 9) + 200
    rw [hco, hpx, hpt]
    norm_num [hL]
  have hy : (cylProjState.project (90, 0)).y.getD 0 = 200 := by
    rw [project_cyl cylProjState (90, 0) hmo hmc]
    show ((if cylProjState.mixer.mercator = true then _ else (0 : ℝ) - (0 : ℝ × ℝ).2)
        - cylProjState.co.2) * cylProjState.pxlPerDgr + cylProjState.pt.2 = 200
    rw [hmm, hco, hpx, hpt]
    norm_num
  have hpt1 : cylProjState.pt.1 = (200 : ℝ) := by rw [hpt]
  have hco1 : cylProjState.co.1 = (0 : ℝ) := by rw [hco]
  have hlngv : ((180 / π * (10 / 9) + 200 : ℝ) - cylProjState.pt.1) /
      cylProjState.pxlPerDgr + cylProjState.co.1 = 180 / π := by
    rw [hpx, hpt1, hco1]
    field_simp
    ring
  have hgt : ¬ ((180 / π : ℝ) > 180) := by
    rw [gt_iff_lt, not_lt]
    rw [div_le_iff hπ]
    nlinarith
  have hlt : ¬ ((180 / π : ℝ) < -180) := by
    have hpos : (0 : ℝ) < 180 / π := div_pos (by norm_num) hπ
    rw [not_lt]
    linarith only [hpos]
  have hfinal : (cylProjState.invert (180 / π * (10 / 9) + 200, 200)).lng
      = some (180 / π) := by
    rw [invert_cyl cylProjState _ hmo hmc]
    show some (if (if ((180 / π * (10 / 9) + 200 : ℝ) - cylProjState.pt.1) /
          cylProjState.pxlPerDgr + cylProjState.co.1 > 180 then
            -180 + jsmod (((180 / π * (10 / 9) + 200 : ℝ) - cylProjState.pt.1) /
              cylProjState.pxlPerDgr + cylProjState.co.1) 180
          else ((180 / π * (10 / 9) + 200 : ℝ) - cylProjState.pt.1) /
            cylProjState.pxlPerDgr + cylProjState.co.1) < -180 then
        180 + jsmod (if ((180 / π * (10 / 9) + 200 : ℝ) - cylProjState.pt.1) /
            cylProjState.pxlPerDgr + cylProjState.co.1 > 180 then
              -180 + jsmod (((180 / π * (10 / 9) + 200 : ℝ) - cylProjState.pt.1) /
                cylProjState.pxlPerDgr + cylProjState.co.1) 180
            else ((180 / π * (10 / 9) + 200 : ℝ) - cylProjState.pt.1) /
              cylProjState.pxlPerDgr + cylProjState.co.1) 180
        else (if ((180 / π * (10 / 9) + 200 : ℝ) - cylProjState.pt.1) /
            cylProjState.pxlPerDgr + cylProjState.co.1 > 180 then
              -180 + jsmod (((180 / π * (10 / 9) + 200 : ℝ) - cylProjState.pt.1) /
                cylProjState.pxlPerDgr + cylProjState.co.1) 180
            else ((180 / π * (10 / 9) + 200 : ℝ) - cylProjState.pt.1) /
              cylProjState.pxlPerDgr + cylProjState.co.1))
      = some (180 / π)
    rw [hlngv, if_neg hgt, if_neg hlt]
  constructor
  · rw [project_cyl cylProjState (90, 0) hmo hmc]
    trivial
  · rw [hx, hy, hfinal]
    intro heq
    have h90 : (180 / π : ℝ) = 90 := Option.some.injEq _ _ ▸ heq
    have hπ2 : π = 2 := by
      field_simp at h90
      linarith
    nlinarith

end voyc

end
